import Mathlib

set_option maxRecDepth 4000

/-!
Verification development for the collaborative-doc distributed file service
(name server + storage servers + clients, written in C).

Text is modelled as `List Char` (the C code works on NUL-terminated `char`
buffers).  Each definition is a shallow embedding of one C function, named
after it; the file/lock/undo/checkpoint stores of one storage server are a
record of association lists standing for its directories, and the name
server's trie keyed by filename bytes is an association list keyed by the
character path actually walked.  Fixed buffer capacities (1024 words, 256
sentences, 8192-byte files) are not modelled; all modelled inputs stay far
below them.
-/

namespace CollabDoc

/-- Byte strings (`char` buffers). -/
abbrev Str := List Char

/-- The whitespace set of strtok(content, " \t\n") used by the SS write engine. -/
def isWS (c : Char) : Bool := c = ' ' || c = '\t' || c = '\n'

/-- The whitespace set of strtok(new_content, " \t") used when splitting an
insert payload into words. -/
def isWSnt (c : Char) : Bool := c = ' ' || c = '\t'

/-- Sentence terminators: '.', '!', '?'. -/
def isDelim (c : Char) : Bool := c = '.' || c = '!' || c = '?'

/-- Accumulator pass of the strtok loop: split into maximal nonempty runs of
non-separator characters. `cur` holds the current word reversed. -/
def tokensAux (p : Char → Bool) : Str → Str → List Str
  | [], cur => if cur.isEmpty then [] else [cur.reverse]
  | c :: rest, cur =>
    if p c then
      if cur.isEmpty then tokensAux p rest []
      else cur.reverse :: tokensAux p rest []
    else tokensAux p rest (c :: cur)

/-- Tokenisation of file content by strtok(content, " \t\n"). -/
def wordsOf (s : Str) : List Str := tokensAux isWS s []

/-- Tokenisation of an insert payload by strtok(new_content, " \t"). -/
def contentWords (s : Str) : List Str := tokensAux isWSnt s []

/-- Does a word end in a sentence terminator?  (The C code checks
word[strlen(word)-1] against '.', '!', '?'.) -/
def endsWithDelim (w : Str) : Bool :=
  match w.getLast? with
  | some c => isDelim c
  | none => false

/-- The sentence-boundary scan shared by get_sentence_info_simple, the insert
handler and the ETIRW merge: a sentence ends at each word whose last character
is a terminator; a trailing run without a terminator is one extra sentence.
`acc` holds the words of the sentence under construction. -/
def splitSentencesAux : List Str → List Str → List (List Str)
  | [], acc => if acc.isEmpty then [] else [acc]
  | w :: ws, acc =>
    if endsWithDelim w then (acc ++ [w]) :: splitSentencesAux ws []
    else splitSentencesAux ws (acc ++ [w])

/-- Sentences of a word list (each sentence is its span of words; the
terminator stays attached to the last word). -/
def splitSentences (ws : List Str) : List (List Str) := splitSentencesAux ws []

/-- The reconstruction loop `for i: if (i > 0) strcat(" "); strcat(word)`. -/
def joinW : List Str → Str
  | [] => []
  | w :: ws => w ++ (ws.map (fun v => ' ' :: v)).flatten

/-- One sentence-append step of the ETIRW merge: if the output so far is
nonempty add one space, then the sentence's words separated by single
spaces. -/
def appendSentenceC (acc : Str) : List Str → Str
  | [] => acc
  | w :: ws =>
    ws.foldl (fun a v => a ++ ' ' :: v) ((if acc.isEmpty then [] else acc ++ [' ']) ++ w)

/-- Peeling the terminator off a sentence before an insert: if the last word
ends in a terminator, drop that character (dropping the word entirely if it
was just the terminator) and remember the terminator. -/
def peelDelim (sent : List Str) : List Str × Option Char :=
  match sent.getLast? with
  | none => (sent, none)
  | some w =>
    match w.getLast? with
    | none => (sent, none)
    | some c =>
      if isDelim c then
        if w.dropLast.isEmpty then (sent.dropLast, some c)
        else (sent.dropLast ++ [w.dropLast], some c)
      else (sent, none)

/-- Re-attach a peeled terminator to the last word accumulated so far. -/
def attachLast (ws : List Str) (d : Char) : List Str :=
  match ws.getLast? with
  | none => ws
  | some w => ws.dropLast ++ [w ++ [d]]

/-- The insert loop of the write engine: walk the (peeled) sentence words at
1-based positions, placing the new words right before position `pos`; if the
loop ends without reaching `pos` the new words are appended at the end. -/
def insertLoop : List Str → Nat → List Str → List Str
  | ws, 0, _ => ws
  | ws, 1, nws => nws ++ ws
  | [], _ + 2, nws => nws
  | w :: ws, n + 2, nws => w :: insertLoop ws (n + 1) nws

example : wordsOf ("Hello  world. Goodbye world.".toList) =
    ["Hello".toList, "world.".toList, "Goodbye".toList, "world.".toList] := by decide

example : splitSentences (wordsOf ("Hello world. Goodbye world.".toList)) =
    [["Hello".toList, "world.".toList], ["Goodbye".toList, "world.".toList]] := by decide

example : splitSentences (wordsOf ("one. two three".toList)) =
    [["one.".toList], ["two".toList, "three".toList]] := by decide

example : peelDelim ["Hello".toList, "world.".toList] =
    (["Hello".toList, "world".toList], some '.') := by decide

example : insertLoop ["Hello".toList, "world".toList] 3 ["cruel".toList] =
    ["Hello".toList, "world".toList, "cruel".toList] := by decide

example : joinW ["a".toList, "b.".toList] = "a b.".toList := by decide

/-!  ## SS write engine: ETIRW merge and word insertion  -/

/-- The ETIRW commit merge (client_handler_thread, "SMART MERGE" block):
re-tokenise the current live file and the swap; if the live file has no
sentences take the whole swap; if the target index is beyond the live
sentences append the swap's last sentence after the raw live content;
otherwise output live sentences before the target, the swap's sentence at the
target index (when the swap has one), and live sentences after the target. -/
def mergeCommit (live swap : Str) (t : Nat) : Str :=
  let cs := splitSentences (wordsOf live)
  let ss := splitSentences (wordsOf swap)
  if cs.length = 0 then swap
  else if t > cs.length then
    let base := if live.isEmpty then [] else live ++ [' ']
    match ss.getLast? with
    | some sent => base ++ joinW sent
    | none => base
  else
    let before := (cs.take (t - 1)).foldl appendSentenceC []
    let withTgt :=
      match ss.get? (t - 1) with
      | some sent => appendSentenceC before sent
      | none => before
    (cs.drop t).foldl appendSentenceC withTgt

/-- Error cases of the in-WRITE-mode insert handler (the C code sends distinct
ERR_400/ERR_404 strings; out-of-range covers both the raw-count and the
delimiter-adjusted count check). -/
inductive InsertError
  | nonPositiveIndex
  | emptyFileOnlyOne
  | newSentenceOnlyOne
  | outOfRange
  deriving Repr, DecidableEq

/-- The insert handler body (client_handler_thread, "FIXED WORD INSERTION
LOGIC"): `cur` is the current state (swap content if a swap exists, else the
live file), `t` the locked sentence, `wordIdx` the parsed 1-based position and
`nc` the raw payload after the index.  Returns the new swap content. -/
def insertWords (cur : Str) (t : Nat) (wordIdx : Int) (nc : Str) :
    Except InsertError Str :=
  if wordIdx < 1 then .error .nonPositiveIndex
  else
    let pos := wordIdx.toNat
    if cur.isEmpty && t = 1 then
      if pos = 1 then .ok nc else .error .emptyFileOnlyOne
    else
      let sents := splitSentences (wordsOf cur)
      if t > sents.length then
        if pos = 1 then .ok (if cur.isEmpty then nc else cur ++ ' ' :: nc)
        else .error .newSentenceOnlyOne
      else
        let sent := (sents.get? (t - 1)).getD []
        if pos > sent.length + 1 then .error .outOfRange
        else
          let peeled := peelDelim sent
          if pos > peeled.1.length + 1 then .error .outOfRange
          else
            let beforeW := (sents.take (t - 1)).flatten
            let afterW := (sents.drop t).flatten
            let inserted := insertLoop peeled.1 pos (contentWords nc)
            let merged :=
              match peeled.2 with
              | some d => attachLast (beforeW ++ inserted) d
              | none => beforeW ++ inserted
            .ok (joinW (merged ++ afterW))

/-- Sentence availability computed on a WRITE command: empty file offers
sentence 1; content with no words offers 2; otherwise the sentence count, plus
one more when the last word carries a terminator (a complete last sentence
lets the writer start a new one). -/
def availableSentences (content : Str) : Nat :=
  if content.isEmpty then 1
  else
    let ws := wordsOf content
    let sents := splitSentences ws
    if sents.length = 0 then 2
    else
      match ws.getLast? with
      | some w => if endsWithDelim w then sents.length + 1 else sents.length
      | none => sents.length

example : insertWords ("Hello world. Goodbye world.".toList) 1 3 "cruel".toList =
    .ok ("Hello world cruel. Goodbye world.".toList) := rfl

example : insertWords ("Hello world. Goodbye world.".toList) 2 1 "Farewell".toList =
    .ok ("Hello world. Farewell Goodbye world.".toList) := rfl

example : insertWords ("one. two.".toList) 1 2 "big".toList =
    .ok ("one big. two.".toList) := rfl

example : insertWords ("one. two.".toList) 1 4 "big".toList =
    .error .outOfRange := rfl

example : mergeCommit ("Hello world. Goodbye world.".toList)
    "Hello world cruel. Goodbye world.".toList 1 =
    "Hello world cruel. Goodbye world.".toList := by decide

example : mergeCommit ("Hello world cruel. Goodbye world.".toList)
    "Hello world. Farewell Goodbye world.".toList 2 =
    "Hello world cruel. Farewell Goodbye world.".toList := by decide

example : availableSentences ("one. two.".toList) = 3 := by decide

example : availableSentences ("one. two".toList) = 2 := by decide

example : availableSentences ("".toList) = 1 := by decide

/-!  ## Association lists standing for directories / in-memory tables  -/

/-- Lookup by key (fopen for reading: the file exists or not). -/
def lookupA {α β : Type} [DecidableEq α] (l : List (α × β)) (k : α) : Option β :=
  (l.find? (fun e => decide (e.1 = k))).map (fun e => e.2)

/-- Write a file (fopen "w"): overwrite the existing entry or create one. -/
def setA {α β : Type} [DecidableEq α] : List (α × β) → α → β → List (α × β)
  | [], k, v => [(k, v)]
  | e :: rest, k, v => if e.1 = k then (k, v) :: rest else e :: setA rest k v

/-- Remove a file (remove(2)). -/
def removeA {α β : Type} [DecidableEq α] (l : List (α × β)) (k : α) : List (α × β) :=
  l.filter (fun e => !decide (e.1 = k))

/-- Append to a file (fopen "a"), creating it when missing. -/
def appendA {α : Type} [DecidableEq α] (l : List (α × Str)) (k : α) (v : Str) :
    List (α × Str) :=
  setA l k (((lookupA l k).getD []) ++ v)

/-!  ## Undo log file format (create_file_backup / perform_undo)  -/

/-- The C-locale isspace characters skipped by scanf %ld / %d. -/
def cSpace (c : Char) : Bool := c = ' ' || c = '\t' || c = '\n' || c = '\r'

/-- Decimal value of a digit run. -/
def digitsVal (ds : Str) : Nat := ds.foldl (fun a c => a * 10 + (c.toNat - 48)) 0

/-- scanf %ld: skip whitespace, optional sign, then at least one digit. -/
def parseIntC (s : Str) : Option (Int × Str) :=
  let s1 := s.dropWhile cSpace
  match s1 with
  | '-' :: r =>
    let ds := r.takeWhile Char.isDigit
    if ds.isEmpty then none
    else some (-(digitsVal ds : Int), r.dropWhile Char.isDigit)
  | '+' :: r =>
    let ds := r.takeWhile Char.isDigit
    if ds.isEmpty then none
    else some ((digitsVal ds : Int), r.dropWhile Char.isDigit)
  | _ =>
    let ds := s1.takeWhile Char.isDigit
    if ds.isEmpty then none
    else some ((digitsVal ds : Int), s1.dropWhile Char.isDigit)

/-- printf %ld rendering. -/
def intToStr (i : Int) : Str :=
  if i < 0 then '-' :: Nat.toDigits 10 i.natAbs else Nat.toDigits 10 i.natAbs

/-- fgets over a buffer: split after every newline, keeping the newline in the
line, with a final partial line when the file does not end in a newline. -/
def fgetsLinesAux : Str → Str → List Str
  | [], cur => if cur.isEmpty then [] else [cur.reverse]
  | c :: rest, cur =>
    if c = '\n' then (c :: cur).reverse :: fgetsLinesAux rest []
    else fgetsLinesAux rest (c :: cur)

/-- All fgets lines of a file's bytes. -/
def fgetsLines (s : Str) : List Str := fgetsLinesAux s []

/-- One line of a file's undo log as perform_undo parses it. -/
structure UndoEntry where
  timestamp : Int
  backupName : Str
  user : Str
  used : Int
  deriving Repr, DecidableEq

/-- sscanf(line, "%ld|%255[^|]|%127[^|]|%d") accepting 3 or 4 conversions:
with 3 the remaining `used` keeps its initialisation 0.  A scanset consumes
every character other than '|' — including a newline left in the line by
fgets. -/
def parse_undo_line (line : Str) : Option UndoEntry :=
  match parseIntC line with
  | none => none
  | some (ts, r1) =>
    match r1 with
    | '|' :: r2 =>
      let name := r2.takeWhile (fun c => !decide (c = '|'))
      if name.isEmpty then none
      else
        match r2.dropWhile (fun c => !decide (c = '|')) with
        | '|' :: r3 =>
          let user := r3.takeWhile (fun c => !decide (c = '|'))
          if user.isEmpty then none
          else
            let used : Int :=
              match r3.dropWhile (fun c => !decide (c = '|')) with
              | '|' :: r4 =>
                match parseIntC r4 with
                | some (u, _) => u
                | none => 0
              | _ => 0
            some ⟨ts, name, user, used⟩
        | _ => none
    | _ => none

/-- fprintf(new_undo_meta, "%ld|%s|%s|%d\n", ...) for one entry. -/
def serialize_undo_entry (e : UndoEntry) : Str :=
  intToStr e.timestamp ++ '|' :: e.backupName ++ '|' :: e.user ++ '|' ::
    intToStr e.used ++ ['\n']

/-- Inner scan of perform_undo's exchange sort: `e` plays backups[i]; each
backups[j] with a strictly larger timestamp is swapped in, the displaced
element staying at position j. -/
def selectMax : UndoEntry → List UndoEntry → UndoEntry × List UndoEntry
  | e, [] => (e, [])
  | e, x :: xs =>
    if e.timestamp < x.timestamp then
      let p := selectMax x xs
      (p.1, e :: p.2)
    else
      let p := selectMax e xs
      (p.1, x :: p.2)

theorem selectMax_length (e : UndoEntry) (l : List UndoEntry) :
    (selectMax e l).2.length = l.length := by
  induction l generalizing e with
  | nil => simp [selectMax]
  | cons x xs ih =>
    simp only [selectMax]
    by_cases h : e.timestamp < x.timestamp <;> simp [h, ih]

/-- perform_undo's double swap loop with the outer loop counter made
explicit as fuel (the loop body runs once per array position): timestamps
descending. -/
def exchSortFuel : Nat → List UndoEntry → List UndoEntry
  | 0, l => l
  | _ + 1, [] => []
  | fuel + 1, e :: es =>
    match selectMax e es with
    | (m, rest) => m :: exchSortFuel fuel rest

/-- The full sort pass of perform_undo. -/
def exchSort (l : List UndoEntry) : List UndoEntry := exchSortFuel l.length l

/-!  ## Storage server state  -/

/-- One storage server's mutable state: its files/ directory, the per-writer
swap files keyed by (filename, sentence, client fd), the in-memory sentence
lock list (newest first, as add_sentence_lock prepends), the undo/ logs as raw
bytes, the versions/ backups, the checkpoints/ directory keyed by the
flattened "file_tag.checkpoint" name, and the checkpoint_meta/ logs. -/
structure SSState where
  files : List (Str × Str)
  swaps : List ((Str × Nat × Nat) × Str)
  locks : List (Str × Nat × Nat)
  undoLogs : List (Str × Str)
  backups : List (Str × Str)
  checkpoints : List (Str × Str)
  checkpointMeta : List (Str × Str)
  deriving Repr, DecidableEq

/-- is_sentence_locked: some lock on the same (file, sentence) held by a
different client fd. -/
def is_sentence_locked (locks : List (Str × Nat × Nat)) (f : Str) (s : Nat)
    (fd : Nat) : Bool :=
  locks.any (fun l => decide (l.1 = f) && decide (l.2.1 = s) && !decide (l.2.2 = fd))

/-- The UNDO / CHECKPOINT / REVERT guard: any sentence lock on the file. -/
def fileLocked (locks : List (Str × Nat × Nat)) (f : Str) : Bool :=
  locks.any (fun l => decide (l.1 = f))

/-- get_client_write_info: the first lock held by this fd, if any. -/
def get_client_write_info (locks : List (Str × Nat × Nat)) (fd : Nat) :
    Option (Str × Nat) :=
  (locks.find? (fun l => decide (l.2.2 = fd))).map (fun l => (l.1, l.2.1))

/-- remove_sentence_lock: drop the first exactly-matching lock. -/
def remove_sentence_lock : List (Str × Nat × Nat) → Str → Nat → Nat →
    List (Str × Nat × Nat)
  | [], _, _, _ => []
  | l :: rest, f, s, fd =>
    if l = (f, s, fd) then rest else l :: remove_sentence_lock rest f s fd

/-- remove_client_locks on disconnect: drop every lock held by the fd. -/
def remove_client_locks (locks : List (Str × Nat × Nat)) (fd : Nat) :
    List (Str × Nat × Nat) :=
  locks.filter (fun l => !decide (l.2.2 = fd))

/-- create_file_backup: copy the live file into versions/ under a timestamped
name and append "now|backupname|user\n" (no used field!) to the file's undo
log.  Returns 0 when the live file is missing, 1 on success. -/
def create_file_backup (st : SSState) (file : Str) (now : Int) (user : Str) :
    SSState × Int :=
  match lookupA st.files file with
  | none => (st, 0)
  | some content =>
    let backupName := file ++ '_' :: intToStr now ++ ".bak".toList
    let line := intToStr now ++ '|' :: backupName ++ '|' :: user ++ ['\n']
    ({ st with
        backups := setA st.backups backupName content
        undoLogs := appendA st.undoLogs file line }, 1)

/-- perform_undo: parse the undo log (skipping unparsable fgets lines), sort
descending by timestamp, restore the first entry with used = 0 into the live
file, set its used flag and rewrite the whole log with "%ld|%s|%s|%d\n"
lines.  Returns 0 with no history, -1 when the backup bytes are missing, 1 on
success. -/
def perform_undo (st : SSState) (file : Str) : SSState × Int :=
  match lookupA st.undoLogs file with
  | none => (st, 0)
  | some raw =>
    let entries := (fgetsLines raw).filterMap parse_undo_line
    if entries.isEmpty then (st, 0)
    else
      let sorted := exchSort entries
      match sorted.findIdx? (fun e => decide (e.used = 0)) with
      | none => (st, 0)
      | some idx =>
        match sorted.get? idx with
        | none => (st, 0)
        | some tgt =>
          match lookupA st.backups tgt.backupName with
          | none => (st, -1)
          | some bc =>
            let newEntries := sorted.set idx { tgt with used := 1 }
            ({ st with
                files := setA st.files file bc
                undoLogs := setA st.undoLogs file
                  (newEntries.map serialize_undo_entry).flatten }, 1)

/-- create_checkpoint: refuse (-2) when "file_tag.checkpoint" already exists
in checkpoints/; otherwise copy the live bytes there and append
"now|tag|user|size\n" to the file's checkpoint meta log.  0 = live file
missing. -/
def create_checkpoint (st : SSState) (file tag : Str) (now : Int) (user : Str) :
    SSState × Int :=
  match lookupA st.files file with
  | none => (st, 0)
  | some content =>
    let cpName := file ++ '_' :: tag ++ ".checkpoint".toList
    match lookupA st.checkpoints cpName with
    | some _ => (st, -2)
    | none =>
      let meta := intToStr now ++ '|' :: tag ++ '|' :: user ++ '|' ::
        intToStr content.length ++ ['\n']
      ({ st with
          checkpoints := setA st.checkpoints cpName content
          checkpointMeta := appendA st.checkpointMeta file meta }, 1)

/-- revert_to_checkpoint: 0 when "file_tag.checkpoint" is missing; otherwise a
fresh backup is taken (undo history grows) and the checkpoint bytes replace
the live file. -/
def revert_to_checkpoint (st : SSState) (file tag : Str) (now : Int)
    (user : Str) : SSState × Int :=
  let cpName := file ++ '_' :: tag ++ ".checkpoint".toList
  match lookupA st.checkpoints cpName with
  | none => (st, 0)
  | some content =>
    let st1 := (create_file_backup st file now user).1
    ({ st1 with files := setA st1.files file content }, 1)

/-!  ## Direct-client command dispatch (client_handler_thread loop body)  -/

/-- Responses of the textual SS protocol, abstracted from their strings.
Read-only commands whose replies no claim mentions are folded into
`otherCmd`; `silent` is a failed inner sscanf with no else branch (the C
sends nothing). -/
inductive Resp
  | contentInserted
  | writeCompleted
  | writeModeEnabled
  | invalidInsert
  | insertFailed (e : InsertError)
  | fileNotFound
  | sentenceMustBePositive
  | sentenceUnavailable
  | conflict409
  | undoCompleted
  | undoNoHistory
  | undoFailed
  | undoBlocked
  | checkpointCreated
  | checkpointExists
  | checkpointFailed
  | checkpointBlocked
  | revertCompleted
  | revertNotFound
  | revertFailed
  | revertBlocked
  | created201
  | deleted
  | bye
  | badFormat
  | silent
  | unknownCmd
  | otherCmd
  deriving Repr, DecidableEq

/-- scanf %s: skip whitespace, then the next maximal non-whitespace run. -/
def tokenC (s : Str) : Str × Str :=
  let s1 := s.dropWhile cSpace
  (s1.takeWhile (fun c => !cSpace c), s1.dropWhile (fun c => !cSpace c))

/-- sscanf(buf, "%d %2047[^\n]") == 2: an integer, then a nonempty rest after
skipping whitespace. -/
def parseInsertLine (line : Str) : Option (Int × Str) :=
  match parseIntC line with
  | none => none
  | some (idx, r) =>
    let rest := r.dropWhile cSpace
    if rest.isEmpty then none else some (idx, rest)

/-- sscanf(buf, "WRITE %s %d") == 2 with its leading literal. -/
def parseWriteCmd (line : Str) : Option (Str × Int) :=
  if line.take 5 = "WRITE".toList then
    let p := tokenC (line.drop 5)
    if p.1.isEmpty then none
    else
      match parseIntC p.2 with
      | some (n, _) => some (p.1, n)
      | none => none
  else none

/-- sscanf(buf, "<LIT> %255s %255s") == 2 (CHECKPOINT / REVERT /
VIEWCHECKPOINT re-parse). -/
def parseTwoArgs (lit : Str) (line : Str) : Option (Str × Str) :=
  if line.take lit.length = lit then
    let p1 := tokenC (line.drop lit.length)
    if p1.1.isEmpty then none
    else
      let p2 := tokenC p1.2
      if p2.1.isEmpty then none else some (p1.1, p2.1)
  else none

/-- The ETIRW branch: with no swap file just release the lock; otherwise take
a backup, merge the swap against the current live file, write the result,
drop the swap, release the lock. -/
def etirwStep (st : SSState) (fd : Nat) (file : Str) (sentNum : Nat)
    (now : Int) (user : Str) : SSState × Resp :=
  let st1 :=
    match lookupA st.swaps (file, sentNum, fd) with
    | none => st
    | some swapContent =>
      let stB := (create_file_backup st file now user).1
      let live := (lookupA stB.files file).getD []
      { stB with
          files := setA stB.files file (mergeCommit live swapContent sentNum)
          swaps := removeA stB.swaps (file, sentNum, fd) }
  ({ st1 with locks := remove_sentence_lock st1.locks file sentNum fd },
    .writeCompleted)

/-- An in-WRITE-mode line that is not ETIRW: parse "<idx> <content>", read the
swap if present else the live file, run the insert, write the swap. -/
def insertStep (st : SSState) (fd : Nat) (file : Str) (sentNum : Nat)
    (line : Str) : SSState × Resp :=
  match parseInsertLine line with
  | none => (st, .invalidInsert)
  | some (idx, nc) =>
    if idx < 1 then (st, .insertFailed .nonPositiveIndex)
    else
      let cur? :=
        match lookupA st.swaps (file, sentNum, fd) with
        | some c => some c
        | none => lookupA st.files file
      match cur? with
      | none => (st, .fileNotFound)
      | some cur =>
        match insertWords cur sentNum idx nc with
        | .error e => (st, .insertFailed e)
        | .ok newSwap =>
          ({ st with swaps := setA st.swaps (file, sentNum, fd) newSwap },
            .contentInserted)

/-- The WRITE command: check the file, compute available sentences, validate
the requested sentence, then take the (file, sentence) lock unless another fd
holds it. -/
def writeStep (st : SSState) (fd : Nat) (line : Str) : SSState × Resp :=
  match parseWriteCmd line with
  | none => (st, .silent)
  | some (f, n) =>
    match lookupA st.files f with
    | none => (st, .fileNotFound)
    | some content =>
      if n < 1 then (st, .sentenceMustBePositive)
      else if n > (availableSentences content : Int) then
        (st, .sentenceUnavailable)
      else if is_sentence_locked st.locks f n.toNat fd then (st, .conflict409)
      else ({ st with locks := (f, n.toNat, fd) :: st.locks }, .writeModeEnabled)

/-- The direct-client UNDO command: refused while any sentence lock is held on
the file; otherwise requires the file and runs perform_undo. -/
def undoCmdStep (st : SSState) (f : Str) : SSState × Resp :=
  if fileLocked st.locks f then (st, .undoBlocked)
  else
    match lookupA st.files f with
    | none => (st, .fileNotFound)
    | some _ =>
      let p := perform_undo st f
      if p.2 = 1 then (p.1, .undoCompleted)
      else if p.2 = 0 then (p.1, .undoNoHistory)
      else (p.1, .undoFailed)

/-- The NS-forwarded MSG_UNDO handler (handle_ns_commands): perform_undo plus
an ACK on success — with no sentence-lock check. -/
def ns_undo_step (st : SSState) (f : Str) : SSState × Bool :=
  let p := perform_undo st f
  (p.1, p.2 = 1)

/-- The CHECKPOINT command: refused while the file is locked, 404 when the
file is missing, then create_checkpoint. -/
def checkpointCmdStep (st : SSState) (f tag : Str) (now : Int) (user : Str) :
    SSState × Resp :=
  if fileLocked st.locks f then (st, .checkpointBlocked)
  else
    match lookupA st.files f with
    | none => (st, .fileNotFound)
    | some _ =>
      let p := create_checkpoint st f tag now user
      if p.2 = 1 then (p.1, .checkpointCreated)
      else if p.2 = -2 then (p.1, .checkpointExists)
      else (p.1, .checkpointFailed)

/-- The REVERT command guardrail plus revert_to_checkpoint. -/
def revertCmdStep (st : SSState) (f tag : Str) (now : Int) (user : Str) :
    SSState × Resp :=
  if fileLocked st.locks f then (st, .revertBlocked)
  else
    match lookupA st.files f with
    | none => (st, .fileNotFound)
    | some _ =>
      let p := revert_to_checkpoint st f tag now user
      if p.2 = 1 then (p.1, .revertCompleted)
      else if p.2 = 0 then (p.1, .revertNotFound)
      else (p.1, .revertFailed)

/-- The command chain of the recv loop for a connection not in WRITE mode,
dispatched in source order.  READ, STREAM, checkpoint views, listings, and
access-request commands only touch state this model does not carry (metadata,
request logs), so they return `otherCmd` with the state unchanged. -/
def dispatchCmd (st : SSState) (fd : Nat) (now : Int) (user : Str)
    (line : Str) : SSState × Resp :=
    let p1 := tokenC line
    let cmd := p1.1
    let p2 := tokenC p1.2
    let fname := p2.1
    let hasRest := !((p2.2.dropWhile cSpace).isEmpty)
    if cmd = "CREATE".toList && !fname.isEmpty then
      ({ st with files := setA st.files fname [] }, .created201)
    else if cmd = "READ".toList && !fname.isEmpty then (st, .otherCmd)
    else if cmd = "STREAM".toList && !fname.isEmpty then (st, .otherCmd)
    else if cmd.take 5 = "WRITE".toList then writeStep st fd line
    else if cmd = "UNDO".toList && !fname.isEmpty then undoCmdStep st fname
    else if cmd = "CHECKPOINT".toList && hasRest then
      match parseTwoArgs ("CHECKPOINT".toList) line with
      | some ft => checkpointCmdStep st ft.1 ft.2 now user
      | none => (st, .badFormat)
    else if cmd = "VIEWCHECKPOINT".toList && hasRest then (st, .otherCmd)
    else if cmd = "REVERT".toList && hasRest then
      match parseTwoArgs ("REVERT".toList) line with
      | some ft => revertCmdStep st ft.1 ft.2 now user
      | none => (st, .badFormat)
    else if cmd = "LISTCHECKPOINTS".toList && !fname.isEmpty then (st, .otherCmd)
    else if cmd = "DELETE".toList && !fname.isEmpty then
      match lookupA st.files fname with
      | some _ => ({ st with files := removeA st.files fname }, .deleted)
      | none => (st, .fileNotFound)
    else if cmd = "EXIT".toList then (st, .bye)
    else if !cmd.isEmpty && (cmd = "REQUESTACCESS".toList ||
        cmd = "VIEWREQUESTS".toList || cmd = "APPROVEREQUEST".toList ||
        cmd = "DENYREQUEST".toList) then (st, .otherCmd)
    else (st, .unknownCmd)

/-- One iteration of the client_handler_thread recv loop on one line (already
stripped of its newline).  While the fd holds a lock the line is ETIRW or an
insert; otherwise the command chain runs. -/
def handleLine (st : SSState) (fd : Nat) (now : Int) (user : Str)
    (line : Str) : SSState × Resp :=
  match get_client_write_info st.locks fd with
  | some fs =>
    if line.take 5 = "ETIRW".toList then etirwStep st fd fs.1 fs.2 now user
    else insertStep st fd fs.1 fs.2 line
  | none => dispatchCmd st fd now user line

/-- The recv loop over a sequence of lines from one connection. -/
def processLines (st : SSState) (fd : Nat) (now : Int) (user : Str) :
    List Str → SSState
  | [] => st
  | line :: rest =>
    processLines (handleLine st fd now user line).1 fd now user rest

/-!  ## Name server: trie index, LRU cache, folder registry  -/

/-- The character path actually walked in the trie: children are indexed by
(int)filename[i] and indices outside [0, TRIE_CHAR_SET_SIZE = 128) are
skipped, so characters ≥ 128 (negative as signed char) do not contribute to
the key. -/
def trieKey (s : Str) : Str := s.filter (fun c => decide (c.toNat < 128))

/-- An NS file record (the fields the verified claims touch; word/char counts
and timestamps are carried by the same record in C but no claim constrains
them).  `acl` is the ordered ACL of at most MAX_ACL_ENTRIES = 10
(username, permission) pairs, permissions being PERM_NONE 0 / PERM_READ 1 /
PERM_WRITE 2. -/
structure FileRec where
  filename : Str
  owner : Str
  ss_index : Int
  folder : Str
  acl : List (Str × Nat)
  deriving Repr, DecidableEq

/-- The trie as the finite map it implements: records addressed by the walked
character path of their filename. -/
abbrev Trie := List (Str × FileRec)

/-- search_delete_file: walk the RAW filename characters; the walk aborts
with -1 (Not Found) at the first character whose index falls outside
[0, TRIE_CHAR_SET_SIZE = 128) — unlike add/find, which skip such characters —
or at a missing node; then -1 when no record is there, -2 when the requester
is not the owner, else unlink the record and return its ss_index.  (When all
characters are < 128 the walked path equals trieKey filename.) -/
def search_delete_file (trie : Trie) (filename user : Str) : Trie × Int :=
  if filename.all (fun c => decide (c.toNat < 128)) then
    match lookupA trie (trieKey filename) with
    | none => (trie, -1)
    | some r =>
      if r.owner ≠ user then (trie, -2)
      else (removeA trie (trieKey filename), r.ss_index)
  else (trie, -1)

/-- search_grant_permission: only the owner may grant; an existing ACL entry
for the target is updated in place, otherwise the target is appended unless
the ACL already has 10 entries. -/
def search_grant_permission (trie : Trie) (filename owner target : Str)
    (perm : Nat) : Trie × Int :=
  match lookupA trie (trieKey filename) with
  | none => (trie, -1)
  | some r =>
    if r.owner ≠ owner then (trie, -1)
    else
      match r.acl.findIdx? (fun e => decide (e.1 = target)) with
      | some i =>
        (setA trie (trieKey filename) { r with acl := r.acl.set i (target, perm) }, 0)
      | none =>
        if r.acl.length ≥ 10 then (trie, -1)
        else (setA trie (trieKey filename) { r with acl := r.acl ++ [(target, perm)] }, 0)

/-- The payload of one MSG_REGISTER_FILE record from an SS manifest (the
fields the claims touch). -/
structure SSFileRecordPayload where
  filename : Str
  owner : Str
  folder : Str
  acl : List (Str × Nat)
  deriving Repr, DecidableEq

/-- search_rebuild_add_file: accept the manifest record when the filename is
unknown, refresh it when the same SS re-declares it, and reject it (leaving
the trie unchanged) when a different SS already claims the name.  The new
record copies owner, ACL and folder from the payload. -/
def search_rebuild_add_file (trie : Trie) (ss_index : Int)
    (p : SSFileRecordPayload) : Trie :=
  let newRec : FileRec :=
    { filename := p.filename, owner := p.owner, ss_index := ss_index,
      folder := p.folder, acl := p.acl }
  match lookupA trie (trieKey p.filename) with
  | some r =>
    if r.ss_index = ss_index then setA trie (trieKey p.filename) newRec
    else trie
  | none => setA trie (trieKey p.filename) newRec

/-- starts_with(s, prefix): plain strncmp prefix test (an empty prefix always
matches). -/
def starts_with (s prefx : Str) : Bool :=
  s.take prefx.length = prefx

/-- The folder rewrite inside search_move_folder for one matching record:
drop the src prefix, drop one separating '/', and prepend dst. -/
def rewriteFolder (folder src dst : Str) : Str :=
  if src.length = 0 then dst
  else
    let rest :=
      match folder.drop src.length with
      | '/' :: r => r
      | r => r
    if rest.length > 0 then dst ++ '/' :: rest else dst

/-- The folder registry: (foldername, owner) in registration order. -/
abbrev FolderReg := List (Str × Str)

/-- search_move_folder: require src registered to this owner and dst
unregistered; rename the registry entry and rewrite the folder field of every
file record whose folder starts_with src.  Returns the updated count, or -1
on any refusal. -/
def search_move_folder (trie : Trie) (folders : FolderReg) (src dst owner : Str) :
    (Trie × FolderReg) × Int :=
  match folders.findIdx? (fun e => decide (e.1 = src)) with
  | none => ((trie, folders), -1)
  | some i =>
    match folders.get? i with
    | none => ((trie, folders), -1)
    | some entry =>
      if entry.2 ≠ owner then ((trie, folders), -1)
      else if folders.any (fun e => decide (e.1 = dst)) then ((trie, folders), -1)
      else
        let folders2 := folders.set i (dst, entry.2)
        let trie2 := trie.map (fun e =>
          if starts_with e.2.folder src then
            (e.1, { e.2 with folder := rewriteFolder e.2.folder src dst })
          else e)
        ((trie2, folders2),
          ((trie.filter (fun e => starts_with e.2.folder src)).length : Int))

/-!  ## Name server LRU cache  -/

/-- One slot of the CACHE_SIZE = 16 array. -/
structure CacheEntry where
  filename : Str
  ss_index : Int
  last_used_time : Nat
  is_valid : Bool
  deriving Repr, DecidableEq

/-- init_cache: 16 zeroed (invalid) slots. -/
def initCache : List CacheEntry :=
  List.replicate 16 { filename := [], ss_index := 0, last_used_time := 0, is_valid := false }

/-- cache_lookup: the scan with break — the first valid slot with this name
is a hit; its timestamp is bumped to `now` and its ss_index returned; a miss
returns -1 with the array untouched. -/
def cache_lookup : List CacheEntry → Str → Nat → List CacheEntry × Int
  | [], _, _ => ([], -1)
  | e :: rest, f, now =>
    if e.is_valid && decide (e.filename = f) then
      ({ e with last_used_time := now } :: rest, e.ss_index)
    else
      let p := cache_lookup rest f now
      (e :: p.1, p.2)

/-- The slot-selection scan of cache_add: the first invalid slot wins
immediately; otherwise the running minimum (strict) of last_used_time,
initialised to `now`, picks the slot. -/
def findSlotAux : List CacheEntry → Nat → Nat → Nat → Nat × Bool
  | [], _, best, _ => (best, false)
  | e :: rest, i, best, oldest =>
    if !e.is_valid then (i, true)
    else if e.last_used_time < oldest then findSlotAux rest (i + 1) i e.last_used_time
    else findSlotAux rest (i + 1) best oldest

/-- cache_add: overwrite the chosen slot with a fresh valid entry stamped
`now`. -/
def cache_add (cache : List CacheEntry) (f : Str) (ssIdx : Int) (now : Nat) :
    List CacheEntry :=
  let slot := (findSlotAux cache 0 0 now).1
  cache.set slot { filename := f, ss_index := ssIdx, last_used_time := now, is_valid := true }

/-- cache_invalidate: the scan with break — clear the first valid slot
carrying this name. -/
def cache_invalidate : List CacheEntry → Str → List CacheEntry
  | [], _ => []
  | e :: rest, f =>
    if e.is_valid && decide (e.filename = f) then { e with is_valid := false } :: rest
    else e :: cache_invalidate rest f

/-!  ## Name server state and client handlers  -/

/-- The NS naming state the claims touch: trie, LRU cache, folder registry. -/
structure NSState where
  trie : Trie
  cache : List CacheEntry
  folders : FolderReg
  deriving Repr, DecidableEq

/-- search_find_file: cache first (hit bumps and returns), then the trie; a
successful trie lookup is inserted into the cache. -/
def search_find_file (st : NSState) (f : Str) (now : Nat) : NSState × Int :=
  let cl := cache_lookup st.cache f now
  if cl.2 ≠ -1 then ({ st with cache := cl.1 }, cl.2)
  else
    match lookupA st.trie (trieKey f) with
    | none => (st, -1)
    | some r => ({ st with cache := cache_add st.cache f r.ss_index now }, r.ss_index)

/-- Client-visible results of handle_delete_request. -/
inductive NSResp
  | ackOk
  | errNotFound
  | errDenied
  deriving Repr, DecidableEq

/-- handle_delete_request: trie delete first (authorises and unlinks), then
cache invalidation, then the forward to the SS (always ACKed to the client
once the NS records are updated, even if the SS fails). -/
def handle_delete_request (st : NSState) (f user : Str) : NSState × NSResp :=
  let d := search_delete_file st.trie f user
  if d.2 = -1 then (st, .errNotFound)
  else if d.2 = -2 then (st, .errDenied)
  else
    ({ st with trie := d.1, cache := cache_invalidate st.cache f }, .ackOk)

/-!  ## Lemmas about the text primitives  -/

theorem mem_tokensAux_ne_nil (p : Char → Bool) :
    ∀ (s cur : Str) (w : Str), w ∈ tokensAux p s cur → w ≠ []
  | [], cur, w, hw => by
    by_cases hc : cur.isEmpty <;> simp [tokensAux, hc] at hw
    · subst hw
      simp only [List.isEmpty_iff] at hc
      simpa using fun h => hc (by simpa using congrArg List.reverse h)
  | c :: rest, cur, w, hw => by
    simp only [tokensAux] at hw
    by_cases hp : p c
    · by_cases hc : cur.isEmpty
      · simp [hp, hc] at hw
        exact mem_tokensAux_ne_nil p rest [] w hw
      · simp [hp, hc] at hw
        rcases hw with hw | hw
        · subst hw
          simp only [List.isEmpty_iff] at hc
          simpa using fun h => hc (by simpa using congrArg List.reverse h)
        · exact mem_tokensAux_ne_nil p rest [] w hw
    · simp [hp] at hw
      exact mem_tokensAux_ne_nil p rest (c :: cur) w hw

theorem mem_wordsOf_ne_nil (s : Str) (w : Str) (hw : w ∈ wordsOf s) : w ≠ [] :=
  mem_tokensAux_ne_nil isWS s [] w hw

theorem mem_splitSentencesAux_ne_nil :
    ∀ (ws : List Str) (acc : List Str) (s : List Str),
      s ∈ splitSentencesAux ws acc → s ≠ []
  | [], acc, s, hs => by
    by_cases hc : acc.isEmpty <;> simp [splitSentencesAux, hc] at hs
    · subst hs
      simpa [List.isEmpty_iff] using hc
  | w :: ws, acc, s, hs => by
    simp only [splitSentencesAux] at hs
    by_cases hd : endsWithDelim w
    · simp [hd] at hs
      rcases hs with hs | hs
      · subst hs; simp
      · exact mem_splitSentencesAux_ne_nil ws [] s hs
    · simp [hd] at hs
      exact mem_splitSentencesAux_ne_nil ws (acc ++ [w]) s hs

theorem mem_splitSentences_ne_nil (ws : List Str) (s : List Str)
    (hs : s ∈ splitSentences ws) : s ≠ [] :=
  mem_splitSentencesAux_ne_nil ws [] s hs

theorem mem_of_mem_splitSentencesAux :
    ∀ (ws : List Str) (acc : List Str) (s : List Str) (w : Str),
      s ∈ splitSentencesAux ws acc → w ∈ s → w ∈ acc ∨ w ∈ ws
  | [], acc, s, w, hs, hw => by
    by_cases hc : acc.isEmpty <;> simp [splitSentencesAux, hc] at hs
    · subst hs; exact Or.inl hw
  | x :: ws, acc, s, w, hs, hw => by
    simp only [splitSentencesAux] at hs
    by_cases hd : endsWithDelim x
    · simp [hd] at hs
      rcases hs with hs | hs
      · subst hs
        rcases List.mem_append.mp hw with h | h
        · exact Or.inl h
        · simp at h; subst h; simp
      · rcases mem_of_mem_splitSentencesAux ws [] s w hs hw with h | h
        · simp at h
        · simp [h]
    · simp [hd] at hs
      rcases mem_of_mem_splitSentencesAux ws (acc ++ [x]) s w hs hw with h | h
      · rcases List.mem_append.mp h with h | h
        · exact Or.inl h
        · simp at h; subst h; simp
      · simp [h]

theorem mem_of_mem_splitSentences (ws : List Str) (s : List Str) (w : Str)
    (hs : s ∈ splitSentences ws) (hw : w ∈ s) : w ∈ ws := by
  rcases mem_of_mem_splitSentencesAux ws [] s w hs hw with h | h
  · simp at h
  · exact h

theorem foldl_sp (ws : List Str) (x : Str) :
    ws.foldl (fun a v => a ++ ' ' :: v) x =
      x ++ (ws.map (fun v => ' ' :: v)).flatten := by
  induction ws generalizing x with
  | nil => simp
  | cons w ws ih => simp [List.foldl_cons, ih]

theorem appendSentenceC_eq (acc : Str) (s : List Str) (hs : s ≠ []) :
    appendSentenceC acc s =
      (if acc.isEmpty then [] else acc ++ [' ']) ++ joinW s := by
  cases s with
  | nil => exact absurd rfl hs
  | cons w ws => simp [appendSentenceC, foldl_sp, joinW]

theorem joinW_ne_nil (s : List Str) (hs : s ≠ [])
    (hw : ∀ w ∈ s, w ≠ []) : joinW s ≠ [] := by
  cases s with
  | nil => exact absurd rfl hs
  | cons w ws =>
    have : w ≠ [] := hw w (by simp)
    cases w with
    | nil => exact absurd rfl this
    | cons c cs => simp [joinW]

theorem joinW_append (xs ys : List Str) (hx : xs ≠ []) (hy : ys ≠ []) :
    joinW (xs ++ ys) = joinW xs ++ ' ' :: joinW ys := by
  cases xs with
  | nil => exact absurd rfl hx
  | cons x xs =>
    cases ys with
    | nil => exact absurd rfl hy
    | cons y ys => simp [joinW]

theorem flatten_ne_nil_of_mem (ls : List (List Str)) (hne : ls ≠ [])
    (h : ∀ s ∈ ls, s ≠ []) : ls.flatten ≠ [] := by
  cases ls with
  | nil => exact absurd rfl hne
  | cons s ls =>
    have hs : s ≠ [] := h s (by simp)
    cases s with
    | nil => exact absurd rfl hs
    | cons w ws => simp

theorem foldl_appendSentenceC (sents : List (List Str)) (acc : Str)
    (h1 : ∀ s ∈ sents, s ≠ []) (h2 : ∀ s ∈ sents, ∀ w ∈ s, w ≠ []) :
    sents.foldl appendSentenceC acc =
      if sents.isEmpty then acc
      else if acc.isEmpty then joinW sents.flatten
      else acc ++ ' ' :: joinW sents.flatten := by
  induction sents generalizing acc with
  | nil => simp
  | cons s ss ih =>
    have hs : s ≠ [] := h1 s (by simp)
    have hws : ∀ w ∈ s, w ≠ [] := h2 s (by simp)
    have hjs : joinW s ≠ [] := joinW_ne_nil s hs hws
    have hstep := appendSentenceC_eq acc s hs
    have ih2 := ih (appendSentenceC acc s)
      (fun t ht => h1 t (by simp [ht])) (fun t ht => h2 t (by simp [ht]))
    rw [List.foldl_cons, ih2]
    by_cases hss : ss.isEmpty
    · have : ss = [] := List.isEmpty_iff.mp hss
      subst this
      by_cases hacc : acc.isEmpty
      · have : acc = [] := List.isEmpty_iff.mp hacc
        subst this
        simp [hstep, hacc]
      · simp [hstep, hacc]
    · have hssne : ss ≠ [] := by
        intro h; subst h; simp at hss
      have hflat : ss.flatten ≠ [] :=
        flatten_ne_nil_of_mem ss hssne (fun t ht => h1 t (by simp [ht]))
      have hstepne : ¬(appendSentenceC acc s).isEmpty := by
        rw [hstep]
        by_cases hacc : acc.isEmpty <;>
          simp [hacc, List.isEmpty_iff] <;> intro hcon <;> exact hjs hcon
      have hjoin : joinW (s :: ss).flatten = joinW s ++ ' ' :: joinW ss.flatten := by
        have : (s :: ss).flatten = s ++ ss.flatten := by simp
        rw [this, joinW_append s ss.flatten hs hflat]
      by_cases hacc : acc.isEmpty
      · have : acc = [] := List.isEmpty_iff.mp hacc
        subst this
        simp [hss, hstepne, hstep, hacc]
        rw [if_neg hjs]
        exact (joinW_append s ss.flatten hs hflat).symm
      · simp [hss, hstepne, hstep, hacc]
        exact (joinW_append s ss.flatten hs hflat).symm

theorem insertLoop_eq (ws nws : List Str) (pos : Nat) (h1 : 1 ≤ pos)
    (h2 : pos ≤ ws.length + 1) :
    insertLoop ws pos nws = ws.take (pos - 1) ++ nws ++ ws.drop (pos - 1) := by
  induction ws generalizing pos with
  | nil =>
    match pos, h1, h2 with
    | 1, _, _ => simp [insertLoop]
  | cons w ws ih =>
    match pos, h1 with
    | 1, _ => simp [insertLoop]
    | (n + 2), _ =>
      have hn : n + 1 ≤ ws.length + 1 := by
        simpa using Nat.succ_le_succ_iff.mp h2
      simp [insertLoop, ih (n + 1) (by omega) hn]

theorem attachLast_append (xs ys : List Str) (d : Char) (hy : ys ≠ []) :
    attachLast (xs ++ ys) d = xs ++ attachLast ys d := by
  unfold attachLast
  rw [List.getLast?_append_of_ne_nil xs hy]
  cases h : ys.getLast? with
  | none => simp [List.getLast?_eq_none_iff] at h; exact absurd h hy
  | some w =>
    rw [List.dropLast_append_of_ne_nil xs hy]
    simp

/-- The in-range branch of the ETIRW merge produces exactly: live sentences
before the target, the swap's target sentence, live sentences after, all
words joined by single spaces. -/
theorem mergeCommit_take_drop (live swap : Str) (t : Nat) (sent : List Str)
    (h1 : 1 ≤ t) (ht : t ≤ (splitSentences (wordsOf live)).length)
    (hsent : (splitSentences (wordsOf swap)).get? (t - 1) = some sent) :
    mergeCommit live swap t =
      joinW (((splitSentences (wordsOf live)).take (t - 1)).flatten ++ sent
        ++ ((splitSentences (wordsOf live)).drop t).flatten) := by
  set cs := splitSentences (wordsOf live) with hcs
  have hcsne : ¬(cs.length = 0) := by omega
  have hgt : ¬(t > cs.length) := by omega
  have hmemcs : ∀ s ∈ cs, s ≠ [] := fun s hs =>
    mem_splitSentences_ne_nil (wordsOf live) s hs
  have hwcs : ∀ s ∈ cs, ∀ w ∈ s, w ≠ [] := fun s hs w hw =>
    mem_wordsOf_ne_nil live w (mem_of_mem_splitSentences (wordsOf live) s w hs hw)
  have hsentmem : sent ∈ splitSentences (wordsOf swap) := List.get?_mem hsent
  have hsentne : sent ≠ [] :=
    mem_splitSentences_ne_nil (wordsOf swap) sent hsentmem
  have hsentw : ∀ w ∈ sent, w ≠ [] := fun w hw =>
    mem_wordsOf_ne_nil swap w (mem_of_mem_splitSentences (wordsOf swap) sent w hsentmem hw)
  have hjsent : joinW sent ≠ [] := joinW_ne_nil sent hsentne hsentw
  have htake1 : ∀ s ∈ cs.take (t - 1), s ≠ [] := fun s hs =>
    hmemcs s (List.take_subset _ _ hs)
  have htake2 : ∀ s ∈ cs.take (t - 1), ∀ w ∈ s, w ≠ [] := fun s hs =>
    hwcs s (List.take_subset _ _ hs)
  have hdrop1 : ∀ s ∈ cs.drop t, s ≠ [] := fun s hs =>
    hmemcs s (List.drop_subset _ _ hs)
  have hdrop2 : ∀ s ∈ cs.drop t, ∀ w ∈ s, w ≠ [] := fun s hs =>
    hwcs s (List.drop_subset _ _ hs)
  have hA := foldl_appendSentenceC (cs.take (t - 1)) [] htake1 htake2
  unfold mergeCommit
  rw [← hcs, if_neg hcsne, if_neg hgt]
  simp only [hsent]
  rw [foldl_appendSentenceC (cs.drop t) _ hdrop1 hdrop2,
    appendSentenceC_eq _ sent hsentne, hA]
  have hwordsTake : ∀ w ∈ (cs.take (t - 1)).flatten, w ≠ [] := by
    intro w hw
    rcases List.mem_flatten.mp hw with ⟨s, hs, hws⟩
    exact htake2 s hs w hws
  have hwordsDrop : ∀ w ∈ (cs.drop t).flatten, w ≠ [] := by
    intro w hw
    rcases List.mem_flatten.mp hw with ⟨s, hs, hws⟩
    exact hdrop2 s hs w hws
  by_cases hT : (cs.take (t - 1)).isEmpty
  · have hTf : (cs.take (t - 1)).flatten = [] := by
      rw [List.isEmpty_iff.mp hT]; rfl
    by_cases hD : (cs.drop t).isEmpty
    · have hDf : (cs.drop t).flatten = [] := by
        rw [List.isEmpty_iff.mp hD]; rfl
      simp [hT, hD, hTf, hDf]
    · have hDne : cs.drop t ≠ [] := fun h => by simp [h] at hD
      have hDf : (cs.drop t).flatten ≠ [] :=
        flatten_ne_nil_of_mem _ hDne hdrop1
      have hBne : ¬(([] : Str) ++ joinW sent).isEmpty = true := by
        simp [List.isEmpty_iff]; exact hjsent
      simp only [hT, if_true, hD, if_false, hBne, hTf, List.nil_append]
      rw [joinW_append sent ((cs.drop t).flatten) hsentne hDf]
      simp [List.isEmpty_iff, hjsent]
  · have hTne : cs.take (t - 1) ≠ [] := fun h => by simp [h] at hT
    have hTf : (cs.take (t - 1)).flatten ≠ [] :=
      flatten_ne_nil_of_mem _ hTne htake1
    have hTj : joinW ((cs.take (t - 1)).flatten) ≠ [] :=
      joinW_ne_nil _ hTf hwordsTake
    have hTjE : ¬(joinW ((cs.take (t - 1)).flatten)).isEmpty = true := by
      simpa [List.isEmpty_iff] using hTj
    by_cases hD : (cs.drop t).isEmpty
    · have hDf : (cs.drop t).flatten = [] := by
        rw [List.isEmpty_iff.mp hD]; rfl
      simp only [hDf, List.append_nil]
      rw [joinW_append ((cs.take (t - 1)).flatten) sent hTf hsentne]
      simp [hT, hD, List.isEmpty_iff, hTj, hjsent]
    · have hDne : cs.drop t ≠ [] := fun h => by simp [h] at hD
      have hDf : (cs.drop t).flatten ≠ [] :=
        flatten_ne_nil_of_mem _ hDne hdrop1
      have hsdne : sent ++ (cs.drop t).flatten ≠ [] := by
        intro h
        exact hsentne (List.append_eq_nil.mp h).1
      have hR : joinW ((cs.take (t - 1)).flatten ++ sent ++ (cs.drop t).flatten) =
          joinW ((cs.take (t - 1)).flatten) ++
            ' ' :: (joinW sent ++ ' ' :: joinW ((cs.drop t).flatten)) := by
        rw [List.append_assoc,
          joinW_append ((cs.take (t - 1)).flatten) (sent ++ (cs.drop t).flatten) hTf hsdne,
          joinW_append sent ((cs.drop t).flatten) hsentne hDf]
      rw [hR]
      simp [hT, hD, List.isEmpty_iff, hTj, hjsent]

/-!  ## Claim C1: commit merge  -/

/-- Scenario S2 start: one SS holding file doc with the literal content. -/
def s2Init : SSState :=
  { files := [("doc".toList, "Hello world. Goodbye world.".toList)], swaps := [],
    locks := [], undoLogs := [], backups := [], checkpoints := [], checkpointMeta := [] }

/-- Writer A (fd 1) locks sentence 1 and inserts cruel at position 3; writer B
(fd 2) locks sentence 2 and inserts Farewell at position 1; neither has
committed yet. -/
def s2Prepared : SSState :=
  processLines
    (processLines s2Init 1 100 ("alice".toList) ["WRITE doc 1".toList, "3 cruel".toList])
    2 100 ("bob".toList) ["WRITE doc 2".toList, "1 Farewell".toList]

/-- Both commits, A first. -/
def s2FinalAB : SSState :=
  (handleLine (handleLine s2Prepared 1 101 ("alice".toList) ("ETIRW".toList)).1
    2 102 ("bob".toList) ("ETIRW".toList)).1

/-- Both commits, B first. -/
def s2FinalBA : SSState :=
  (handleLine (handleLine s2Prepared 2 101 ("bob".toList) ("ETIRW".toList)).1
    1 102 ("alice".toList) ("ETIRW".toList)).1

/-- C1.  Commit merge: whenever the live file tokenises into at least `t`
sentences and the committed swap has a sentence at index `t`, the rewritten
live file is live sentences 1..t-1, then the swap's sentence t, then live
sentences t+1..n, all joined by single spaces; and in scenario S2 the two
writers' commits yield the literal merged content in either commit order. -/
theorem c1_commit_merge :
    (∀ (live swap : Str) (t : Nat) (sent : List Str),
        1 ≤ t → t ≤ (splitSentences (wordsOf live)).length →
        (splitSentences (wordsOf swap)).get? (t - 1) = some sent →
        mergeCommit live swap t =
          joinW (((splitSentences (wordsOf live)).take (t - 1)).flatten ++ sent ++
            ((splitSentences (wordsOf live)).drop t).flatten)) ∧
    lookupA s2FinalAB.files ("doc".toList) =
      some ("Hello world cruel. Farewell Goodbye world.".toList) ∧
    lookupA s2FinalBA.files ("doc".toList) =
      some ("Hello world cruel. Farewell Goodbye world.".toList) :=
  ⟨mergeCommit_take_drop, by decide, by decide⟩

/-- Witness for C1 at a concrete input: merging writer A's swap for sentence 1
of the S2 file. -/
theorem c1_commit_merge_witness :
    mergeCommit ("Hello world. Goodbye world.".toList)
        ("Hello world cruel. Goodbye world.".toList) 1 =
      joinW (((splitSentences (wordsOf ("Hello world. Goodbye world.".toList))).take 0).flatten
        ++ ["Hello".toList, "world".toList, "cruel.".toList]
        ++ ((splitSentences (wordsOf ("Hello world. Goodbye world.".toList))).drop 1).flatten) :=
  c1_commit_merge.1 ("Hello world. Goodbye world.".toList)
    ("Hello world cruel. Goodbye world.".toList) 1
    ["Hello".toList, "world".toList, "cruel.".toList]
    (by decide) (by decide) (by decide)

/-!  ## Claim C4: insert position  -/

/-- C4.  For a connection in WRITE mode on sentence `t`, with `sent` the
sentence's words and `(pws, some d)` its peeling (N := pws.length is the word
count the server reports), an insert at position N+1 appends the new words at
the sentence end with the terminator re-attached to the new last word, an
insert at position 1 prepends them before the first word (terminator staying
on the old last word), and any position above N+1 is rejected as out of
range. -/
theorem c4_insert_position (cur : Str) (t : Nat) (nc : Str) (sent pws : List Str)
    (d : Char) (ht : 1 ≤ t)
    (hsent : (splitSentences (wordsOf cur)).get? (t - 1) = some sent)
    (hpeel : peelDelim sent = (pws, some d))
    (hcw : contentWords nc ≠ []) (hpws : pws ≠ []) :
    insertWords cur t ((pws.length : Int) + 1) nc =
      .ok (joinW (((splitSentences (wordsOf cur)).take (t - 1)).flatten ++
        attachLast (pws ++ contentWords nc) d ++
        ((splitSentences (wordsOf cur)).drop t).flatten)) ∧
    insertWords cur t 1 nc =
      .ok (joinW (((splitSentences (wordsOf cur)).take (t - 1)).flatten ++
        attachLast (contentWords nc ++ pws) d ++
        ((splitSentences (wordsOf cur)).drop t).flatten)) ∧
    (∀ k : Int, (pws.length : Int) + 1 < k →
      insertWords cur t k nc = .error .outOfRange) := by
  have hcur : ¬(cur.isEmpty && t = 1) = true := by
    intro h
    rcases Bool.and_eq_true_iff.mp h with ⟨h1, _⟩
    have : cur = [] := List.isEmpty_iff.mp h1
    subst this
    simp [wordsOf, tokensAux, splitSentences, splitSentencesAux] at hsent
  obtain ⟨hlen, -⟩ := List.get?_eq_some.mp hsent
  have hgt : ¬(t > (splitSentences (wordsOf cur)).length) := by omega
  have hgetD : ((splitSentences (wordsOf cur)).get? (t - 1)).getD [] = sent := by
    rw [hsent]; rfl
  have hNle : pws.length ≤ sent.length := by
    have hsne : sent ≠ [] := by
      intro h; subst h; simp [peelDelim] at hpeel
    have hs1 : 0 < sent.length := List.length_pos.mpr hsne
    unfold peelDelim at hpeel
    cases hg : sent.getLast? with
    | none => simp [hg] at hpeel
    | some w =>
      simp only [hg] at hpeel
      cases hgw : w.getLast? with
      | none => simp [hgw] at hpeel
      | some c =>
        simp only [hgw] at hpeel
        by_cases hic : isDelim c
        · simp only [hic, if_true] at hpeel
          by_cases hwd : w.dropLast.isEmpty
          · simp only [hwd, if_true, Prod.mk.injEq] at hpeel
            rw [← hpeel.1]
            simp [List.length_dropLast]
          · simp only [hwd] at hpeel
            simp only [Bool.false_eq_true, if_false, Prod.mk.injEq] at hpeel
            rw [← hpeel.1]
            simp [List.length_dropLast]
            omega
        · simp [hic] at hpeel
  refine ⟨?_, ?_, ?_⟩
  · have hpos : ¬((pws.length : Int) + 1 < 1) := by omega
    have hnat : ((pws.length : Int) + 1).toNat = pws.length + 1 := by omega
    unfold insertWords
    rw [if_neg hpos, if_neg hcur, if_neg hgt, hgetD, hnat]
    have h1 : ¬(pws.length + 1 > sent.length + 1) := by omega
    rw [if_neg h1, hpeel]
    have h2 : ¬(pws.length + 1 > pws.length + 1) := by omega
    rw [if_neg h2]
    simp only []
    have hloop : insertLoop pws (pws.length + 1) (contentWords nc) =
        pws ++ contentWords nc := by
      rw [insertLoop_eq pws (contentWords nc) (pws.length + 1) (by omega) (by omega)]
      simp
    rw [hloop, attachLast_append _ _ d (by simp [hpws])]
  · have hpos : ¬((1 : Int) < 1) := by omega
    unfold insertWords
    rw [if_neg hpos, if_neg hcur, if_neg hgt, hgetD]
    have hnat : ((1 : Int)).toNat = 1 := rfl
    rw [hnat]
    have h1 : ¬(1 > sent.length + 1) := by omega
    rw [if_neg h1, hpeel]
    have h2 : ¬(1 > pws.length + 1) := by omega
    rw [if_neg h2]
    simp only []
    have hloop : insertLoop pws 1 (contentWords nc) = contentWords nc ++ pws := by
      cases pws <;> rfl
    rw [hloop, attachLast_append _ _ d (by simp [hcw])]
  · intro k hk
    have hpos : ¬(k < 1) := by omega
    have hknat : pws.length + 1 < k.toNat := by omega
    unfold insertWords
    rw [if_neg hpos, if_neg hcur, if_neg hgt, hgetD]
    by_cases h1 : k.toNat > sent.length + 1
    · rw [if_pos h1]
    · rw [if_neg h1, hpeel]
      have h2 : k.toNat > pws.length + 1 := by omega
      rw [if_pos h2]

/-- Witness for C4: the S2 sentence with both insert positions and a
rejected position 4. -/
theorem c4_insert_position_witness :
    insertWords ("Hello world. Goodbye world.".toList) 1
        ((["Hello".toList, "world".toList] : List Str).length + 1 : Int) ("cruel".toList) =
      .ok (joinW (((splitSentences (wordsOf ("Hello world. Goodbye world.".toList))).take
          (1 - 1)).flatten ++
        attachLast (["Hello".toList, "world".toList] ++ contentWords ("cruel".toList)) '.' ++
        ((splitSentences (wordsOf ("Hello world. Goodbye world.".toList))).drop 1).flatten)) ∧
    insertWords ("Hello world. Goodbye world.".toList) 1 1 ("cruel".toList) =
      .ok (joinW (((splitSentences (wordsOf ("Hello world. Goodbye world.".toList))).take
          (1 - 1)).flatten ++
        attachLast (contentWords ("cruel".toList) ++ ["Hello".toList, "world".toList]) '.' ++
        ((splitSentences (wordsOf ("Hello world. Goodbye world.".toList))).drop 1).flatten)) ∧
    insertWords ("Hello world. Goodbye world.".toList) 1 4 ("cruel".toList) =
      .error .outOfRange := by
  have h := c4_insert_position ("Hello world. Goodbye world.".toList) 1 ("cruel".toList)
    ["Hello".toList, "world.".toList] ["Hello".toList, "world".toList] '.'
    (by decide) (by decide) (by decide) (by decide) (by decide)
  exact ⟨h.1, h.2.1, h.2.2 4 (by decide)⟩

/-!  ## Claim C2: delete authorisation  -/

theorem cache_invalidate_countP (cache : List CacheEntry) (f : Str)
    (hwf : cache.countP (fun e => e.is_valid && decide (e.filename = f)) ≤ 1) :
    (cache_invalidate cache f).countP
      (fun e => e.is_valid && decide (e.filename = f)) = 0 := by
  induction cache with
  | nil => rfl
  | cons e rest ih =>
    by_cases he : (e.is_valid && decide (e.filename = f)) = true
    · rw [List.countP_cons_of_pos (p := fun e => e.is_valid && decide (e.filename = f)) rest he]
        at hwf
      have hrest : rest.countP (fun e => e.is_valid && decide (e.filename = f)) = 0 := by
        omega
      unfold cache_invalidate
      rw [if_pos he]
      rw [List.countP_cons_of_neg (p := fun e => e.is_valid && decide (e.filename = f)) rest
        (by simp)]
      exact hrest
    · rw [List.countP_cons_of_neg (p := fun e => e.is_valid && decide (e.filename = f)) rest he]
        at hwf
      unfold cache_invalidate
      rw [if_neg he]
      rw [List.countP_cons_of_neg (p := fun e => e.is_valid && decide (e.filename = f))
        (cache_invalidate rest f) he]
      exact ih hwf

theorem cache_lookup_miss (cache : List CacheEntry) (f : Str) (now : Nat)
    (h : cache.countP (fun e => e.is_valid && decide (e.filename = f)) = 0) :
    cache_lookup cache f now = (cache, -1) := by
  induction cache with
  | nil => rfl
  | cons e rest ih =>
    by_cases he : (e.is_valid && decide (e.filename = f)) = true
    · rw [List.countP_cons_of_pos (p := fun e => e.is_valid && decide (e.filename = f)) rest he]
        at h
      omega
    · rw [List.countP_cons_of_neg (p := fun e => e.is_valid && decide (e.filename = f)) rest he]
        at h
      unfold cache_lookup
      rw [if_neg he]
      simp [ih h]

theorem lookupA_removeA {α β : Type} [DecidableEq α] (l : List (α × β)) (k : α) :
    lookupA (removeA l k) k = none := by
  induction l with
  | nil => rfl
  | cons e rest ih =>
    by_cases he : e.1 = k
    · have hstep : removeA (e :: rest) k = removeA rest k := by
        simp [removeA, he]
      rw [hstep]
      exact ih
    · have hstep : removeA (e :: rest) k = e :: removeA rest k := by
        simp [removeA, he]
      rw [hstep]
      have h2 : lookupA (e :: removeA rest k) k = lookupA (removeA rest k) k := by
        simp [lookupA, List.find?_cons, he]
      rw [h2]
      exact ih

/-- The NS record a rebuild (or add) stores for the filename "a\x80": the raw
name is kept in the record but the walked trie path drops the byte ≥ 128. -/
def c2HighRec : FileRec :=
  { filename := ("a\x80".toList), owner := "alice".toList, ss_index := 3,
    folder := [], acl := [] }

/-- NS state holding only that record, reachable via search_rebuild_add_file;
its trie key is the filtered path "a". -/
def c2HighState : NSState :=
  { trie := [("a".toList, c2HighRec)], cache := initCache, folders := [] }

/-- Counterexample to C2 as stated: the record for "a\x80" is exactly what
search_rebuild_add_file stores for that manifest name, find("a\x80") succeeds
(add/find skip bytes ≥ 128 when walking, so the file exists and returns its
ss_index 3) and alice is the owner — yet delete("a\x80", alice) answers Not
Found, because search_delete_file walks the raw bytes and aborts at the first
index outside [0, 128). -/
theorem c2_counterexample :
    search_rebuild_add_file [] 3
        { filename := ("a\x80".toList), owner := "alice".toList,
          folder := [], acl := [] } = c2HighState.trie ∧
    (search_find_file c2HighState ("a\x80".toList) 1).2 = 3 ∧
    c2HighRec.owner = "alice".toList ∧
    search_delete_file c2HighState.trie ("a\x80".toList) ("alice".toList) =
      (c2HighState.trie, -1) ∧
    handle_delete_request c2HighState ("a\x80".toList) ("alice".toList) =
      (c2HighState, .errNotFound) := by decide

/-- C2 (amended).  Delete authorisation: a filename containing any byte
outside [0, 128) is refused Not Found outright (the delete walk aborts on it,
even though add/find skip such bytes, so such a record can exist and still
not be deletable); for a filename whose bytes all lie in [0, 128),
search_delete_file succeeds exactly when a record for F exists and the
requester is its owner, in which case it returns the record's ss_index;
handle_delete_request then invalidates F's cache entry and after the ACK a
find for F misses both cache and trie; a missing record answers not-found and
a non-owner is denied, both leaving the state untouched.  (Records carry a
registry slot index, hence ss_index ≥ 0.) -/
theorem c2_delete_authorisation (st : NSState) (f user : Str) (now : Nat)
    (hwf : st.cache.countP (fun e => e.is_valid && decide (e.filename = f)) ≤ 1)
    (hss : ∀ e ∈ st.trie, 0 ≤ e.2.ss_index) :
    (f.all (fun c => decide (c.toNat < 128)) = false →
      search_delete_file st.trie f user = (st.trie, -1) ∧
      handle_delete_request st f user = (st, .errNotFound)) ∧
    (f.all (fun c => decide (c.toNat < 128)) = true →
      match lookupA st.trie (trieKey f) with
      | none =>
        search_delete_file st.trie f user = (st.trie, -1) ∧
        handle_delete_request st f user = (st, .errNotFound)
      | some r =>
        if r.owner = user then
          search_delete_file st.trie f user = (removeA st.trie (trieKey f), r.ss_index) ∧
          (handle_delete_request st f user).2 = .ackOk ∧
          lookupA (handle_delete_request st f user).1.trie (trieKey f) = none ∧
          (search_find_file (handle_delete_request st f user).1 f now).2 = -1 ∧
          (handle_delete_request st f user).1.cache.countP
            (fun e => e.is_valid && decide (e.filename = f)) = 0
        else
          search_delete_file st.trie f user = (st.trie, -2) ∧
          handle_delete_request st f user = (st, .errDenied)) := by
  constructor
  · intro hv
    constructor
    · simp [search_delete_file, hv]
    · simp [handle_delete_request, search_delete_file, hv]
  intro hv
  cases hl : lookupA st.trie (trieKey f) with
  | none =>
    constructor
    · simp [search_delete_file, hv, hl]
    · simp [handle_delete_request, search_delete_file, hv, hl]
  | some r =>
    have hr0 : 0 ≤ r.ss_index := by
      have hfind : ∃ e, st.trie.find? (fun e => decide (e.1 = trieKey f)) = some e ∧
          e.2 = r := by
        unfold lookupA at hl
        cases hf : st.trie.find? (fun e => decide (e.1 = trieKey f)) with
        | none => rw [hf] at hl; simp at hl
        | some e =>
          rw [hf] at hl
          simp at hl
          exact ⟨e, rfl, hl⟩
      obtain ⟨e, he, her⟩ := hfind
      have hmem := hss e (List.mem_of_find?_eq_some he)
      rw [her] at hmem
      exact hmem
    by_cases ho : r.owner = user
    · have hdel : search_delete_file st.trie f user =
          (removeA st.trie (trieKey f), r.ss_index) := by
        simp [search_delete_file, hv, hl, ho]
      have hne1 : ¬(r.ss_index = -1) := by omega
      have hne2 : ¬(r.ss_index = -2) := by omega
      have hcnt : (cache_invalidate st.cache f).countP
          (fun e => e.is_valid && decide (e.filename = f)) = 0 :=
        cache_invalidate_countP st.cache f hwf
      simp only [hl, ho, if_true]
      refine ⟨hdel, ?_, ?_, ?_, ?_⟩
      · unfold handle_delete_request
        rw [hdel]
        simp [hne1, hne2]
      · unfold handle_delete_request
        rw [hdel]
        simp [hne1, hne2, lookupA_removeA]
      · unfold handle_delete_request
        rw [hdel]
        simp only [hne1, hne2, if_false]
        unfold search_find_file
        rw [cache_lookup_miss _ f now hcnt]
        simp [lookupA_removeA]
      · unfold handle_delete_request
        rw [hdel]
        simp [hne1, hne2, hcnt]
    · simp only [hl, ho, if_false]
      constructor
      · simp [search_delete_file, hv, hl, ho]
      · simp [handle_delete_request, search_delete_file, hv, hl, ho]

/-- A one-file NS state for exercising delete. -/
def c2Rec : FileRec :=
  { filename := "a".toList, owner := "alice".toList, ss_index := 0,
    folder := [], acl := [] }

/-- NS state holding only file a owned by alice, with an empty cache. -/
def c2State : NSState :=
  { trie := [("a".toList, c2Rec)], cache := initCache, folders := [] }

/-- Witness for C2: the owner deletes the only file (name all-ASCII). -/
theorem c2_delete_authorisation_witness :
    (match lookupA c2State.trie (trieKey ("a".toList)) with
     | none =>
       search_delete_file c2State.trie ("a".toList) ("alice".toList) = (c2State.trie, -1) ∧
       handle_delete_request c2State ("a".toList) ("alice".toList) = (c2State, .errNotFound)
     | some r =>
       if r.owner = ("alice".toList) then
         search_delete_file c2State.trie ("a".toList) ("alice".toList) =
           (removeA c2State.trie (trieKey ("a".toList)), r.ss_index) ∧
         (handle_delete_request c2State ("a".toList) ("alice".toList)).2 = .ackOk ∧
         lookupA (handle_delete_request c2State ("a".toList) ("alice".toList)).1.trie
           (trieKey ("a".toList)) = none ∧
         (search_find_file (handle_delete_request c2State ("a".toList) ("alice".toList)).1
           ("a".toList) 5).2 = -1 ∧
         (handle_delete_request c2State ("a".toList) ("alice".toList)).1.cache.countP
           (fun e => e.is_valid && decide (e.filename = ("a".toList))) = 0
       else
         search_delete_file c2State.trie ("a".toList) ("alice".toList) = (c2State.trie, -2) ∧
         handle_delete_request c2State ("a".toList) ("alice".toList) =
           (c2State, .errDenied)) :=
  (c2_delete_authorisation c2State ("a".toList) ("alice".toList) 5 (by decide)
    (by decide)).2 (by decide)

/-!  ## Claim C8: LRU cache discipline  -/

theorem findSlotAux_all_ge (cache : List CacheEntry) (base best old : Nat)
    (hv : ∀ e ∈ cache, e.is_valid)
    (hge : ∀ e ∈ cache, old ≤ e.last_used_time) :
    findSlotAux cache base best old = (best, false) := by
  induction cache generalizing base with
  | nil => rfl
  | cons e rest ih =>
    have hev : e.is_valid := hv e (by simp)
    have hlt : ¬(e.last_used_time < old) := by
      have := hge e (by simp)
      omega
    unfold findSlotAux
    simp only [hev, Bool.not_true, Bool.false_eq_true, if_false, hlt, if_neg hlt]
    exact ih (base + 1) (fun x hx => hv x (by simp [hx])) (fun x hx => hge x (by simp [hx]))

theorem findSlotAux_first_empty :
    ∀ (cache : List CacheEntry) (base best old : Nat) (i : Nat) (e : CacheEntry),
      cache.get? i = some e → ¬e.is_valid →
      (∀ j, j < i → ∀ ej, cache.get? j = some ej → ej.is_valid) →
      findSlotAux cache base best old = (base + i, true)
  | [], _, _, _, i, e, hget, _, _ => by simp at hget
  | e0 :: rest, base, best, old, 0, e, hget, hinv, _ => by
    simp at hget
    subst hget
    unfold findSlotAux
    simp [hinv]
  | e0 :: rest, base, best, old, (i + 1), e, hget, hinv, hbefore => by
    have h0 : e0.is_valid := hbefore 0 (by omega) e0 rfl
    have hget2 : rest.get? i = some e := by simpa using hget
    have hbefore2 : ∀ j, j < i → ∀ ej, rest.get? j = some ej → ej.is_valid := by
      intro j hj ej hej
      exact hbefore (j + 1) (by omega) ej (by simpa using hej)
    unfold findSlotAux
    simp only [h0, Bool.not_true, Bool.false_eq_true, if_false]
    by_cases hlt : e0.last_used_time < old
    · rw [if_pos hlt,
        findSlotAux_first_empty rest (base + 1) base e0.last_used_time i e hget2 hinv hbefore2]
      congr 1
      omega
    · rw [if_neg hlt,
        findSlotAux_first_empty rest (base + 1) best old i e hget2 hinv hbefore2]
      congr 1
      omega

theorem findSlotAux_min :
    ∀ (cache : List CacheEntry) (base best old : Nat),
      (∀ e ∈ cache, e.is_valid) →
      (∃ e ∈ cache, e.last_used_time < old) →
      ∃ i e, cache.get? i = some e ∧ e.last_used_time < old ∧
        (∀ e2 ∈ cache, e.last_used_time ≤ e2.last_used_time) ∧
        findSlotAux cache base best old = (base + i, false)
  | [], _, _, _, _, hex => by simp at hex
  | e0 :: rest, base, best, old, hv, hex => by
    have h0 : e0.is_valid := hv e0 (by simp)
    have hvrest : ∀ e ∈ rest, e.is_valid := fun e he => hv e (by simp [he])
    by_cases hlt : e0.last_used_time < old
    · by_cases hex2 : ∃ e ∈ rest, e.last_used_time < e0.last_used_time
      · obtain ⟨i, e, hget, helt, hemin, hres⟩ :=
          findSlotAux_min rest (base + 1) base e0.last_used_time hvrest hex2
        refine ⟨i + 1, e, by simpa using hget, by omega, ?_, ?_⟩
        · intro e2 he2
          rcases List.mem_cons.mp he2 with h | h
          · subst h; omega
          · exact hemin e2 h
        · unfold findSlotAux
          simp only [h0, Bool.not_true, Bool.false_eq_true, if_false, if_pos hlt]
          rw [hres]
          exact congrArg (fun n => (n, false)) (by omega)
      · push_neg at hex2
        refine ⟨0, e0, rfl, hlt, ?_, ?_⟩
        · intro e2 he2
          rcases List.mem_cons.mp he2 with h | h
          · subst h; omega
          · exact hex2 e2 h
        · unfold findSlotAux
          simp only [h0, Bool.not_true, Bool.false_eq_true, if_false, if_pos hlt]
          rw [findSlotAux_all_ge rest (base + 1) base e0.last_used_time hvrest hex2]
          simp
    · have hexr : ∃ e ∈ rest, e.last_used_time < old := by
        rcases hex with ⟨e, he, helt⟩
        rcases List.mem_cons.mp he with h | h
        · subst h; omega
        · exact ⟨e, h, helt⟩
      obtain ⟨i, e, hget, helt, hemin, hres⟩ :=
        findSlotAux_min rest (base + 1) best old hvrest hexr
      refine ⟨i + 1, e, by simpa using hget, helt, ?_, ?_⟩
      · intro e2 he2
        rcases List.mem_cons.mp he2 with h | h
        · subst h; omega
        · exact hemin e2 h
      · unfold findSlotAux
        simp only [h0, Bool.not_true, Bool.false_eq_true, if_false, if_neg hlt]
        rw [hres]
        exact congrArg (fun n => (n, false)) (by omega)

theorem cache_lookup_hit :
    ∀ (cache : List CacheEntry) (f : Str) (now : Nat) (i : Nat) (e : CacheEntry),
      cache.get? i = some e → (e.is_valid && decide (e.filename = f)) = true →
      (∀ j, j < i → ∀ ej, cache.get? j = some ej →
        ¬(ej.is_valid && decide (ej.filename = f)) = true) →
      cache_lookup cache f now =
        (cache.set i { e with last_used_time := now }, e.ss_index)
  | [], _, _, i, e, hget, _, _ => by simp at hget
  | e0 :: rest, f, now, 0, e, hget, hmatch, _ => by
    simp at hget
    subst hget
    unfold cache_lookup
    rw [if_pos hmatch]
    rfl
  | e0 :: rest, f, now, (i + 1), e, hget, hmatch, hbefore => by
    have h0 : ¬(e0.is_valid && decide (e0.filename = f)) = true :=
      hbefore 0 (by omega) e0 rfl
    have hget2 : rest.get? i = some e := by simpa using hget
    have hbefore2 : ∀ j, j < i → ∀ ej, rest.get? j = some ej →
        ¬(ej.is_valid && decide (ej.filename = f)) = true := by
      intro j hj ej hej
      exact hbefore (j + 1) (by omega) ej (by simpa using hej)
    unfold cache_lookup
    rw [if_neg h0, cache_lookup_hit rest f now i e hget2 hmatch hbefore2]
    rfl

theorem cache_lookup_length (cache : List CacheEntry) (f : Str) (now : Nat) :
    (cache_lookup cache f now).1.length = cache.length := by
  induction cache with
  | nil => rfl
  | cons e rest ih =>
    unfold cache_lookup
    by_cases he : (e.is_valid && decide (e.filename = f)) = true
    · simp [he]
    · simp [he, ih]

theorem cache_invalidate_length (cache : List CacheEntry) (f : Str) :
    (cache_invalidate cache f).length = cache.length := by
  induction cache with
  | nil => rfl
  | cons e rest ih =>
    unfold cache_invalidate
    by_cases he : (e.is_valid && decide (e.filename = f)) = true
    · simp [he]
    · simp [he, ih]

/-- Chained lookups via the NS find path, with the clock advancing by one per
lookup. -/
def findSeq : NSState → Nat → List Str → NSState
  | st, _, [] => st
  | st, now, n :: rest => findSeq (search_find_file st n now).1 (now + 1) rest

/-- 17 distinct filenames for the LRU scenarios. -/
def c8names : List Str :=
  ["fa".toList, "fb".toList, "fc".toList, "fd".toList, "fe".toList, "ff".toList,
   "fg".toList, "fh".toList, "fi".toList, "fj".toList, "fk".toList, "fl".toList,
   "fm".toList, "fn".toList, "fo".toList, "fp".toList, "fq".toList]

/-- A trie holding all 17 files. -/
def c8trie : Trie :=
  c8names.map (fun n =>
    (n, { filename := n, owner := "o".toList, ss_index := 3, folder := [],
          acl := [] }))

/-- 17 distinct successful lookups starting from an empty cache. -/
def c8stateC : NSState := findSeq { trie := c8trie, cache := initCache, folders := [] } 1 c8names

/-- 16 lookups fill the cache, the first entry is touched again, then a 17th
distinct file is looked up. -/
def c8stateD : NSState :=
  (search_find_file
    ((search_find_file
      (findSeq { trie := c8trie, cache := initCache, folders := [] } 1 (c8names.take 16))
      ("fa".toList) 17).1)
    ("fq".toList) 18).1

/-- C8.  LRU cache discipline: the cache is the 16-slot array and every
operation preserves its size; a hit renews the entry's timestamp in place and
returns its ss_index; an add takes the first empty slot when one exists and
otherwise overwrites a slot holding the minimum last-used timestamp; after 17
distinct successful lookups the first-inserted entry is gone (and the 17th is
present), while an entry touched between insertions survives the next
eviction (which falls on the oldest untouched entry). -/
theorem c8_lru_discipline :
    initCache.length = 16 ∧
    (∀ (cache : List CacheEntry) (f : Str) (ssIdx : Int) (now : Nat),
      (cache_add cache f ssIdx now).length = cache.length ∧
      (cache_lookup cache f now).1.length = cache.length ∧
      (cache_invalidate cache f).length = cache.length ∧
      cache.countP (fun e => e.is_valid) ≤ cache.length) ∧
    (∀ (cache : List CacheEntry) (f : Str) (now : Nat) (i : Nat) (e : CacheEntry),
      cache.get? i = some e → (e.is_valid && decide (e.filename = f)) = true →
      (∀ j, j < i → ∀ ej, cache.get? j = some ej →
        ¬(ej.is_valid && decide (ej.filename = f)) = true) →
      cache_lookup cache f now =
        (cache.set i { e with last_used_time := now }, e.ss_index)) ∧
    (∀ (cache : List CacheEntry) (f : Str) (ssIdx : Int) (now : Nat) (i : Nat)
        (e : CacheEntry),
      cache.get? i = some e → ¬e.is_valid →
      (∀ j, j < i → ∀ ej, cache.get? j = some ej → ej.is_valid) →
      cache_add cache f ssIdx now =
        cache.set i
          { filename := f, ss_index := ssIdx, last_used_time := now, is_valid := true }) ∧
    (∀ (cache : List CacheEntry) (f : Str) (ssIdx : Int) (now : Nat),
      (∀ e ∈ cache, e.is_valid) →
      (∃ e ∈ cache, e.last_used_time < now) →
      ∃ i e, cache.get? i = some e ∧
        (∀ e2 ∈ cache, e.last_used_time ≤ e2.last_used_time) ∧
        cache_add cache f ssIdx now =
          cache.set i
            { filename := f, ss_index := ssIdx, last_used_time := now, is_valid := true }) ∧
    (c8stateC.cache.countP
        (fun e => e.is_valid && decide (e.filename = "fa".toList)) = 0 ∧
      c8stateC.cache.countP
        (fun e => e.is_valid && decide (e.filename = "fq".toList)) = 1) ∧
    (c8stateD.cache.countP
        (fun e => e.is_valid && decide (e.filename = "fa".toList)) = 1 ∧
      c8stateD.cache.countP
        (fun e => e.is_valid && decide (e.filename = "fb".toList)) = 0) := by
  refine ⟨by decide, ?_, cache_lookup_hit, ?_, ?_, by decide, by decide⟩
  · intro cache f ssIdx now
    exact ⟨by simp [cache_add], cache_lookup_length cache f now,
      cache_invalidate_length cache f, List.countP_le_length _⟩
  · intro cache f ssIdx now i e hget hinv hbefore
    unfold cache_add
    rw [findSlotAux_first_empty cache 0 0 now i e hget hinv hbefore]
    simp
  · intro cache f ssIdx now hv hex
    obtain ⟨i, e, hget, -, hmin, hres⟩ := findSlotAux_min cache 0 0 now hv hex
    refine ⟨i, e, hget, hmin, ?_⟩
    unfold cache_add
    rw [hres]
    simp

/-- A valid cache slot for x on SS 2, last used at time 1. -/
def ceX : CacheEntry :=
  { filename := "x".toList, ss_index := 2, last_used_time := 1, is_valid := true }

/-- A valid cache slot for y on SS 4, last used at time 2. -/
def ceY : CacheEntry :=
  { filename := "y".toList, ss_index := 4, last_used_time := 2, is_valid := true }

/-- An empty (invalid) cache slot. -/
def ceEmpty : CacheEntry :=
  { filename := [], ss_index := 0, last_used_time := 0, is_valid := false }

/-- Witness for C8: a hit on the first slot of a two-slot cache, and an add
into the first empty slot of a part-filled cache. -/
theorem c8_lru_discipline_witness :
    cache_lookup [ceX, ceY] ("x".toList) 9 =
      ([ceX, ceY].set 0 { ceX with last_used_time := 9 }, ceX.ss_index) ∧
    cache_add [ceX, ceEmpty] ("z".toList) 7 9 =
      [ceX, ceEmpty].set 1
        { filename := "z".toList, ss_index := 7, last_used_time := 9, is_valid := true } := by
  constructor
  · exact c8_lru_discipline.2.2.1 [ceX, ceY] ("x".toList) 9 0 ceX rfl (by decide)
      (by intro j hj ej hej; omega)
  · exact c8_lru_discipline.2.2.2.1 [ceX, ceEmpty] ("z".toList) 7 9 1 ceEmpty rfl
      (by decide)
      (by
        intro j hj ej hej
        interval_cases j
        have : ej = ceX := by simpa using hej.symm
        subst this
        decide)

/-!  ## Claim C5: folder rename cascade  -/

/-- A file whose folder is the single path component "ab". -/
def c5Rec : FileRec :=
  { filename := "f1".toList, owner := "alice".toList, ss_index := 0,
    folder := "ab".toList, acl := [] }

/-- NS naming state: folder a (owner alice) and file f1 sitting in folder ab. -/
def c5Trie : Trie := [("f1".toList, c5Rec)]

/-- The folder registry holding only folder a. -/
def c5Folders : FolderReg := [("a".toList, "alice".toList)]

/-- Counterexample to C5 as stated: folder "ab" does not have "a" as a
segment-aligned prefix, yet move_folder("a", "c") rewrites the file's folder
field to "c/b", because starts_with is a plain strncmp prefix test. -/
theorem c5_counterexample :
    c5Rec.folder = "ab".toList ∧
    (search_move_folder c5Trie c5Folders ("a".toList) ("c".toList) ("alice".toList)).2 = 1 ∧
    lookupA (search_move_folder c5Trie c5Folders ("a".toList) ("c".toList)
        ("alice".toList)).1.1 (trieKey ("f1".toList)) =
      some { filename := "f1".toList, owner := "alice".toList, ss_index := 0,
             folder := "c/b".toList, acl := [] } := by decide

/-- C5 (amended).  After a successful move_folder(src, dst, owner) — src
registered to the owner, dst unregistered — exactly those file records whose
folder has src as a plain string prefix (starts_with, i.e. strncmp — NOT
segment-aligned) are rewritten via rewriteFolder, every other record is kept
verbatim, and the registry entry for src is renamed to dst. -/
theorem c5_folder_rename_plain_prefix (trie : Trie) (folders : FolderReg)
    (src dst owner : Str) (i : Nat) (e : Str × Str)
    (hfind : folders.findIdx? (fun x => decide (x.1 = src)) = some i)
    (hget : folders.get? i = some e)
    (howner : e.2 = owner)
    (hdst : ¬(folders.any (fun x => decide (x.1 = dst))) = true) :
    (search_move_folder trie folders src dst owner).1.1 =
      trie.map (fun x =>
        if starts_with x.2.folder src then
          (x.1, { x.2 with folder := rewriteFolder x.2.folder src dst })
        else x) ∧
    (search_move_folder trie folders src dst owner).1.2 = folders.set i (dst, e.2) ∧
    (∀ s p : Str, starts_with s p = true ↔ p <+: s) := by
  refine ⟨?_, ?_, ?_⟩
  · unfold search_move_folder
    simp only [hfind]
    simp only [hget]
    simp [howner, hdst]
  · unfold search_move_folder
    simp only [hfind]
    simp only [hget]
    simp [howner, hdst]
  · intro s p
    unfold starts_with
    rw [decide_eq_true_iff]
    constructor
    · intro h
      rw [List.prefix_iff_eq_take]
      exact h.symm
    · intro h
      exact (List.prefix_iff_eq_take.mp h).symm

/-- Witness for C5 (amended) at the concrete counterexample state. -/
theorem c5_folder_rename_plain_prefix_witness :
    (search_move_folder c5Trie c5Folders ("a".toList) ("c".toList)
        ("alice".toList)).1.1 =
      c5Trie.map (fun x =>
        if starts_with x.2.folder ("a".toList) then
          (x.1, { x.2 with folder := rewriteFolder x.2.folder ("a".toList) ("c".toList) })
        else x) ∧
    (search_move_folder c5Trie c5Folders ("a".toList) ("c".toList)
        ("alice".toList)).1.2 = c5Folders.set 0 ("c".toList, ("a".toList, "alice".toList).2) ∧
    (∀ s p : Str, starts_with s p = true ↔ p <+: s) :=
  c5_folder_rename_plain_prefix c5Trie c5Folders ("a".toList) ("c".toList)
    ("alice".toList) 0 ("a".toList, "alice".toList) (by decide) (by decide) (by decide)
    (by decide)

/-!  ## Claim C9: owner never in ACL  -/

/-- The spec invariant: no ACL entry carries the record's owner. -/
def ownerNotInAcl (r : FileRec) : Prop := ∀ e ∈ r.acl, e.1 ≠ r.owner

/-- The invariant over every reachable record. -/
def trieOwnerInv (trie : Trie) : Prop := ∀ e ∈ trie, ownerNotInAcl e.2

theorem mem_setA {α β : Type} [DecidableEq α] :
    ∀ (l : List (α × β)) (k : α) (v : β) (e : α × β),
      e ∈ setA l k v → e = (k, v) ∨ e ∈ l
  | [], k, v, e, he => by
    unfold setA at he
    simp at he
    exact Or.inl he
  | x :: rest, k, v, e, he => by
    unfold setA at he
    by_cases hx : x.1 = k
    · rw [if_pos hx] at he
      rcases List.mem_cons.mp he with h | h
      · exact Or.inl h
      · exact Or.inr (by simp [h])
    · rw [if_neg hx] at he
      rcases List.mem_cons.mp he with h | h
      · exact Or.inr (by simp [h])
      · rcases mem_setA rest k v e h with h2 | h2
        · exact Or.inl h2
        · exact Or.inr (by simp [h2])

theorem lookupA_mem {α β : Type} [DecidableEq α] (l : List (α × β)) (k : α)
    (v : β) (h : lookupA l k = some v) : (k, v) ∈ l := by
  unfold lookupA at h
  cases hf : l.find? (fun e => decide (e.1 = k)) with
  | none => rw [hf] at h; simp at h
  | some e =>
    rw [hf] at h
    simp at h
    have hp := List.find?_some hf
    have hmem := List.mem_of_find?_eq_some hf
    simp at hp
    have : e = (k, v) := by
      cases e
      simp_all
    rw [← this]
    exact hmem

/-- An NS record for file a owned by alice with an empty ACL. -/
def c9Rec : FileRec :=
  { filename := "a".toList, owner := "alice".toList, ss_index := 0,
    folder := [], acl := [] }

/-- The one-record trie for the grant-to-owner counterexample. -/
def c9Trie : Trie := [("a".toList, c9Rec)]

/-- Counterexample to C9 as stated: the state satisfies the invariant, yet a
grant whose target IS the owner succeeds and appends the owner to the ACL —
search_grant_permission has no owner-target guard. -/
theorem c9_counterexample :
    c9Rec.acl = [] ∧
    (search_grant_permission c9Trie ("a".toList) ("alice".toList) ("alice".toList) 1).2 = 0 ∧
    lookupA (search_grant_permission c9Trie ("a".toList) ("alice".toList)
        ("alice".toList) 1).1 (trieKey ("a".toList)) =
      some { filename := "a".toList, owner := "alice".toList, ss_index := 0,
             folder := [], acl := [("alice".toList, 1)] } := by decide

/-- C9 (amended).  search_grant_permission preserves the owner-not-in-ACL
invariant whenever the target differs from the granting owner (a grant whose
target equals the owner inserts the owner into the ACL, as the counterexample
shows), and search_rebuild_add_file preserves it whenever the SS manifest
record itself does not list its owner in its ACL. -/
theorem c9_owner_acl_preservation :
    (∀ (trie : Trie) (f owner target : Str) (perm : Nat),
      trieOwnerInv trie → target ≠ owner →
      trieOwnerInv (search_grant_permission trie f owner target perm).1) ∧
    (∀ (trie : Trie) (ssIdx : Int) (p : SSFileRecordPayload),
      trieOwnerInv trie → (∀ e ∈ p.acl, e.1 ≠ p.owner) →
      trieOwnerInv (search_rebuild_add_file trie ssIdx p)) := by
  constructor
  · intro trie f owner target perm hinv htgt
    unfold search_grant_permission
    cases hl : lookupA trie (trieKey f) with
    | none => exact hinv
    | some r =>
      simp only []
      by_cases ho : r.owner ≠ owner
      · rw [if_pos ho]
        exact hinv
      · rw [if_neg ho]
        push_neg at ho
        have hrmem : (trieKey f, r) ∈ trie := lookupA_mem trie (trieKey f) r hl
        have hracl : ownerNotInAcl r := hinv (trieKey f, r) hrmem
        cases hidx : r.acl.findIdx? (fun e => decide (e.1 = target)) with
        | some idx =>
          simp only []
          intro x hx
          rcases mem_setA trie (trieKey f) _ x hx with h | h
          · subst h
            intro a ha
            rcases List.mem_or_eq_of_mem_set ha with h2 | h2
            · exact hracl a h2
            · subst h2
              simpa [ho] using htgt
          · exact hinv x h
        | none =>
          simp only []
          by_cases hfull : r.acl.length ≥ 10
          · rw [if_pos hfull]
            exact hinv
          · rw [if_neg hfull]
            intro x hx
            rcases mem_setA trie (trieKey f) _ x hx with h | h
            · subst h
              intro a ha
              rcases List.mem_append.mp ha with h2 | h2
              · exact hracl a h2
              · simp at h2
                subst h2
                simpa [ho] using htgt
            · exact hinv x h
  · intro trie ssIdx p hinv hp
    unfold search_rebuild_add_file
    cases hl : lookupA trie (trieKey p.filename) with
    | none =>
      simp only []
      intro x hx
      rcases mem_setA trie (trieKey p.filename) _ x hx with h | h
      · subst h
        exact hp
      · exact hinv x h
    | some r =>
      simp only []
      by_cases hss : r.ss_index = ssIdx
      · rw [if_pos hss]
        intro x hx
        rcases mem_setA trie (trieKey p.filename) _ x hx with h | h
        · subst h
          exact hp
        · exact hinv x h
      · rw [if_neg hss]
        exact hinv

/-- Witness for C9 (amended): grant of READ to bob on the counterexample
state, and a rebuild_add of a clean manifest record. -/
theorem c9_owner_acl_preservation_witness :
    trieOwnerInv (search_grant_permission c9Trie ("a".toList) ("alice".toList)
      ("bob".toList) 1).1 ∧
    trieOwnerInv (search_rebuild_add_file c9Trie 2
      { filename := "b".toList, owner := "carol".toList, folder := [],
        acl := [("dave".toList, 1)] }) := by
  constructor
  · exact c9_owner_acl_preservation.1 c9Trie ("a".toList) ("alice".toList)
      ("bob".toList) 1
      (by intro e he a ha; simp [c9Trie, c9Rec] at he; simp [he] at ha)
      (by decide)
  · exact c9_owner_acl_preservation.2 c9Trie 2
      { filename := "b".toList, owner := "carol".toList, folder := [],
        acl := [("dave".toList, 1)] }
      (by intro e he a ha; simp [c9Trie, c9Rec] at he; simp [he] at ha)
      (by decide)

/-!  ## Claim C7: checkpoint tag uniqueness  -/

/-- An SS holding files a and a_b, no checkpoints yet. -/
def c7State : SSState :=
  { files := [("a".toList, "x".toList), ("a_b".toList, "y".toList)], swaps := [],
    locks := [], undoLogs := [], backups := [], checkpoints := [],
    checkpointMeta := [] }

/-- c7State after checkpoint(a, b_t). -/
def c7State2 : SSState := (create_checkpoint c7State ("a".toList) ("b_t".toList) 5 ("u".toList)).1

/-- Counterexample to C7 as stated: checkpoint(a, b_t) succeeds, file a_b has
no checkpoint meta at all (so no checkpoint with tag t exists for a_b), yet
checkpoint(a_b, t) reports the tag-exists conflict — both flatten to the
checkpoint file name "a_b_t.checkpoint". -/
theorem c7_counterexample :
    (create_checkpoint c7State ("a".toList) ("b_t".toList) 5 ("u".toList)).2 = 1 ∧
    lookupA c7State2.checkpointMeta ("a_b".toList) = none ∧
    (create_checkpoint c7State2 ("a_b".toList) ("t".toList) 6 ("u".toList)).2 = -2 := by
  decide

/-- C7 (amended).  For an existing live file, create_checkpoint conflicts
(-2, state unchanged) exactly when the flattened name "file_tag.checkpoint"
is already present in the checkpoints directory — which happens whenever this
file already has this tag, but also when another (file, tag) pair flattens to
the same name; on success the live bytes are copied under that name and one
meta line (timestamp|tag|user|size) is appended to the file's meta log. -/
theorem c7_checkpoint_flat_name (st : SSState) (f tag : Str) (now : Int)
    (user : Str) (content : Str) (hlive : lookupA st.files f = some content) :
    match lookupA st.checkpoints (f ++ '_' :: tag ++ ".checkpoint".toList) with
    | some _ => create_checkpoint st f tag now user = (st, -2)
    | none =>
      create_checkpoint st f tag now user =
        ({ st with
            checkpoints := setA st.checkpoints
              (f ++ '_' :: tag ++ ".checkpoint".toList) content
            checkpointMeta := appendA st.checkpointMeta f
              (intToStr now ++ '|' :: tag ++ '|' :: user ++ '|' ::
                intToStr content.length ++ ['\n']) }, 1) := by
  cases hcp : lookupA st.checkpoints (f ++ '_' :: tag ++ ".checkpoint".toList) with
  | some c =>
    unfold create_checkpoint
    rw [hlive]
    simp only [hcp]
  | none =>
    unfold create_checkpoint
    rw [hlive]
    simp only [hcp]

/-- Witness for C7 (amended): the successful first checkpoint of the
counterexample state. -/
theorem c7_checkpoint_flat_name_witness :
    (match lookupA c7State.checkpoints
        (("a".toList) ++ '_' :: ("b_t".toList) ++ ".checkpoint".toList) with
    | some _ => create_checkpoint c7State ("a".toList) ("b_t".toList) 5 ("u".toList) =
        (c7State, -2)
    | none =>
      create_checkpoint c7State ("a".toList) ("b_t".toList) 5 ("u".toList) =
        ({ c7State with
            checkpoints := setA c7State.checkpoints
              (("a".toList) ++ '_' :: ("b_t".toList) ++ ".checkpoint".toList) ("x".toList)
            checkpointMeta := appendA c7State.checkpointMeta ("a".toList)
              (intToStr 5 ++ '|' :: ("b_t".toList) ++ '|' :: ("u".toList) ++ '|' ::
                intToStr ("x".toList).length ++ ['\n']) }, 1)) :=
  c7_checkpoint_flat_name c7State ("a".toList) ("b_t".toList) 5 ("u".toList)
    ("x".toList) (by decide)

/-!  ## Claim C6: undo refused under lock  -/

/-- perform_undo never reads the sentence-lock table: its effect on the files
directory and its result code are the same for any lock table. -/
theorem perform_undo_lock_independent (st : SSState) (f : Str)
    (L : List (Str × Nat × Nat)) :
    (perform_undo { st with locks := L } f).1.files = (perform_undo st f).1.files ∧
    (perform_undo { st with locks := L } f).2 = (perform_undo st f).2 := by
  unfold perform_undo
  cases h1 : lookupA st.undoLogs f with
  | none => simp
  | some raw =>
    simp only []
    by_cases h2 : ((fgetsLines raw).filterMap parse_undo_line).isEmpty
    · simp [h2]
    · simp only [h2, Bool.false_eq_true, if_false]
      cases h3 : (exchSort ((fgetsLines raw).filterMap parse_undo_line)).findIdx?
          (fun e => decide (e.used = 0)) with
      | none => simp
      | some idx =>
        simp only []
        cases h4 : (exchSort ((fgetsLines raw).filterMap parse_undo_line)).get? idx with
        | none => simp
        | some tgt =>
          simp only []
          cases h5 : lookupA st.backups tgt.backupName with
          | none => simp
          | some bc => simp

/-- An SS where fd 7 holds the lock on sentence 1 of doc, and doc has one
unused backup (doc_5.bak holding zero.) in its undo log. -/
def c6State : SSState :=
  { files := [("doc".toList, "one. two.".toList)], swaps := [],
    locks := [("doc".toList, 1, 7)],
    undoLogs := [("doc".toList, "5|doc_5.bak|u\n".toList)],
    backups := [("doc_5.bak".toList, "zero.".toList)], checkpoints := [],
    checkpointMeta := [] }

/-- Counterexample to C6 as stated: with a sentence lock held on doc, the
NS-forwarded undo (handle_ns_commands, MSG_UNDO) is NOT refused — it restores
the backup into the live file and ACKs. -/
theorem c6_counterexample :
    fileLocked c6State.locks ("doc".toList) = true ∧
    (ns_undo_step c6State ("doc".toList)).2 = true ∧
    lookupA (ns_undo_step c6State ("doc".toList)).1.files ("doc".toList) =
      some ("zero.".toList) := by decide

/-- C6 (amended).  The direct-client UNDO command is refused (ERR_409, state
unchanged) while any sentence lock is held on the file; the NS-forwarded undo
message has no sentence-lock check at all — its effect on the files and its
ACK are independent of the lock table. -/
theorem c6_undo_lock_paths :
    (∀ (st : SSState) (f : Str), fileLocked st.locks f = true →
      undoCmdStep st f = (st, .undoBlocked)) ∧
    (∀ (st : SSState) (f : Str) (L : List (Str × Nat × Nat)),
      (ns_undo_step { st with locks := L } f).1.files =
        (ns_undo_step st f).1.files ∧
      (ns_undo_step { st with locks := L } f).2 = (ns_undo_step st f).2) := by
  constructor
  · intro st f h
    unfold undoCmdStep
    rw [if_pos h]
  · intro st f L
    have h := perform_undo_lock_independent st f L
    refine ⟨h.1, ?_⟩
    show decide ((perform_undo { st with locks := L } f).2 = 1) =
      decide ((perform_undo st f).2 = 1)
    rw [h.2]

/-- Witness for C6 (amended): the locked counterexample state. -/
theorem c6_undo_lock_paths_witness :
    undoCmdStep c6State ("doc".toList) = (c6State, .undoBlocked) ∧
    (ns_undo_step { c6State with locks := [] } ("doc".toList)).1.files =
      (ns_undo_step c6State ("doc".toList)).1.files :=
  ⟨c6_undo_lock_paths.1 c6State ("doc".toList) (by decide),
    (c6_undo_lock_paths.2 c6State ("doc".toList) []).1⟩

/-!  ## Claim C3: undo monotonicity  -/

/-- Scenario for C3: file a starts as "one. two.". -/
def c3Init : SSState :=
  { files := [("a".toList, "one. two.".toList)], swaps := [], locks := [],
    undoLogs := [], backups := [], checkpoints := [], checkpointMeta := [] }

/-- First commit (time 10): insert big at position 2 of sentence 1. -/
def c3Commit1 : SSState :=
  processLines c3Init 1 10 ("alice".toList)
    ["WRITE a 1".toList, "2 big".toList, "ETIRW".toList]

/-- Second commit (time 20): insert red at position 2 of sentence 1. -/
def c3Commit2 : SSState :=
  processLines c3Commit1 1 20 ("alice".toList)
    ["WRITE a 1".toList, "2 red".toList, "ETIRW".toList]

/-- First, second and third undo after the two commits. -/
def c3Undo1 : SSState × Resp := undoCmdStep c3Commit2 ("a".toList)

/-- Second undo. -/
def c3Undo2 : SSState × Resp := undoCmdStep c3Undo1.1 ("a".toList)

/-- Third undo. -/
def c3Undo3 : SSState × Resp := undoCmdStep c3Undo2.1 ("a".toList)

/-- C3 is a code bug.  After N = 2 commits (contents "one. two." → "one big.
two." → "one red big. two."), the first undo correctly restores "one big.
two." — but rewriting the log serialises the entry as
"20|a_20.bak|alice\n|1\n": the user field had absorbed the newline left by
fgets, so the used bit lands on a continuation line that the next parse
discards (parsing the first line again yields used = 0).  The second undo
therefore restores a_20.bak AGAIN (file stays "one big. two." instead of
returning to "one. two.") and the third undo still reports success instead
of "no undo history available". -/
theorem c3_undo_used_bit_lost :
    lookupA c3Commit1.files ("a".toList) = some ("one big. two.".toList) ∧
    lookupA c3Commit2.files ("a".toList) = some ("one red big. two.".toList) ∧
    c3Undo1.2 = .undoCompleted ∧
    lookupA c3Undo1.1.files ("a".toList) = some ("one big. two.".toList) ∧
    lookupA c3Undo1.1.undoLogs ("a".toList) =
      some ("20|a_20.bak|alice\n|1\n10|a_10.bak|alice\n|0\n".toList) ∧
    c3Undo2.2 = .undoCompleted ∧
    lookupA c3Undo2.1.files ("a".toList) = some ("one big. two.".toList) ∧
    c3Undo3.2 = .undoCompleted := by decide

/-!  ## Claim C10: one sentence lock per connection  -/

/-- Number of sentence locks held by one client fd. -/
def countLocksFd (locks : List (Str × Nat × Nat)) (fd : Nat) : Nat :=
  locks.countP (fun l => decide (l.2.2 = fd))

theorem countLocksFd_zero_of_none (locks : List (Str × Nat × Nat)) (fd : Nat)
    (h : get_client_write_info locks fd = none) : countLocksFd locks fd = 0 := by
  unfold get_client_write_info at h
  cases hf : locks.find? (fun l => decide (l.2.2 = fd)) with
  | some e => rw [hf] at h; simp at h
  | none =>
    have hall := List.find?_eq_none.mp hf
    unfold countLocksFd
    rw [List.countP_eq_zero]
    exact hall

theorem remove_sentence_lock_countP_le (locks : List (Str × Nat × Nat))
    (f : Str) (s fd fd2 : Nat) :
    countLocksFd (remove_sentence_lock locks f s fd) fd2 ≤ countLocksFd locks fd2 := by
  induction locks with
  | nil => exact Nat.le_refl _
  | cons l rest ih =>
    unfold countLocksFd at ih ⊢
    unfold remove_sentence_lock
    by_cases hl : l = (f, s, fd)
    · rw [if_pos hl]
      simp only [List.countP_cons]
      omega
    · rw [if_neg hl]
      simp only [List.countP_cons]
      omega

theorem create_file_backup_locks (st : SSState) (f : Str) (now : Int) (u : Str) :
    ((create_file_backup st f now u).1).locks = st.locks := by
  unfold create_file_backup
  cases lookupA st.files f <;> rfl

theorem perform_undo_locks (st : SSState) (f : Str) :
    (perform_undo st f).1.locks = st.locks := by
  unfold perform_undo
  cases h1 : lookupA st.undoLogs f with
  | none => rfl
  | some raw =>
    simp only []
    by_cases h2 : ((fgetsLines raw).filterMap parse_undo_line).isEmpty
    · simp [h2]
    · simp only [h2, Bool.false_eq_true, if_false]
      cases h3 : (exchSort ((fgetsLines raw).filterMap parse_undo_line)).findIdx?
          (fun e => decide (e.used = 0)) with
      | none => rfl
      | some idx =>
        simp only []
        cases h4 : (exchSort ((fgetsLines raw).filterMap parse_undo_line)).get? idx with
        | none => rfl
        | some tgt =>
          simp only []
          cases h5 : lookupA st.backups tgt.backupName <;> rfl

theorem create_checkpoint_locks (st : SSState) (f tag : Str) (now : Int) (u : Str) :
    ((create_checkpoint st f tag now u).1).locks = st.locks := by
  unfold create_checkpoint
  cases h1 : lookupA st.files f with
  | none => rfl
  | some content =>
    simp only [h1]
    cases h2 : lookupA st.checkpoints (f ++ '_' :: tag ++ ".checkpoint".toList) with
    | some v => simp [h2]
    | none => simp [h2]

theorem revert_to_checkpoint_locks (st : SSState) (f tag : Str) (now : Int) (u : Str) :
    ((revert_to_checkpoint st f tag now u).1).locks = st.locks := by
  unfold revert_to_checkpoint
  simp only []
  cases h1 : lookupA st.checkpoints (f ++ '_' :: tag ++ ".checkpoint".toList) with
  | none => simp [h1]
  | some content => simp [h1, create_file_backup_locks]

theorem undoCmdStep_locks (st : SSState) (f : Str) :
    ((undoCmdStep st f).1).locks = st.locks := by
  unfold undoCmdStep
  by_cases h : fileLocked st.locks f = true
  · rw [if_pos h]
  · rw [if_neg h]
    cases lookupA st.files f with
    | none => rfl
    | some c =>
      simp only []
      by_cases h3 : (perform_undo st f).2 = 1
      · simp [h3, perform_undo_locks]
      · by_cases h4 : (perform_undo st f).2 = 0 <;> simp [h3, h4, perform_undo_locks]

theorem checkpointCmdStep_locks (st : SSState) (f tag : Str) (now : Int) (u : Str) :
    ((checkpointCmdStep st f tag now u).1).locks = st.locks := by
  unfold checkpointCmdStep
  by_cases h : fileLocked st.locks f = true
  · rw [if_pos h]
  · rw [if_neg h]
    cases lookupA st.files f with
    | none => rfl
    | some c =>
      simp only []
      by_cases h3 : (create_checkpoint st f tag now u).2 = 1
      · simp [h3, create_checkpoint_locks]
      · by_cases h4 : (create_checkpoint st f tag now u).2 = -2 <;>
          simp [h3, h4, create_checkpoint_locks]

theorem revertCmdStep_locks (st : SSState) (f tag : Str) (now : Int) (u : Str) :
    ((revertCmdStep st f tag now u).1).locks = st.locks := by
  unfold revertCmdStep
  by_cases h : fileLocked st.locks f = true
  · rw [if_pos h]
  · rw [if_neg h]
    cases lookupA st.files f with
    | none => rfl
    | some c =>
      simp only []
      by_cases h3 : (revert_to_checkpoint st f tag now u).2 = 1
      · simp [h3, revert_to_checkpoint_locks]
      · by_cases h4 : (revert_to_checkpoint st f tag now u).2 = 0 <;>
          simp [h3, h4, revert_to_checkpoint_locks]

theorem insertStep_locks (st : SSState) (fd : Nat) (f : Str) (s : Nat) (line : Str) :
    ((insertStep st fd f s line).1).locks = st.locks := by
  unfold insertStep
  cases hp : parseInsertLine line with
  | none => rfl
  | some p =>
    cases p with
    | mk idx nc =>
      simp only []
      by_cases h1 : idx < 1
      · rw [if_pos h1]
      · rw [if_neg h1]
        cases h2 : lookupA st.swaps (f, s, fd) with
        | some c =>
          simp only [h2]
          cases insertWords c s idx nc <;> rfl
        | none =>
          simp only [h2]
          cases h3 : lookupA st.files f with
          | none => rfl
          | some cur =>
            simp only []
            cases insertWords cur s idx nc <;> rfl

theorem etirwStep_locks (st : SSState) (fd : Nat) (f : Str) (s : Nat)
    (now : Int) (u : Str) :
    ((etirwStep st fd f s now u).1).locks = remove_sentence_lock st.locks f s fd := by
  unfold etirwStep
  cases lookupA st.swaps (f, s, fd) with
  | none => rfl
  | some sw => simp [create_file_backup_locks]

theorem writeStep_locks (st : SSState) (fd : Nat) (line : Str) :
    ((writeStep st fd line).1).locks = st.locks ∨
    ∃ f s, ((writeStep st fd line).1).locks = (f, s, fd) :: st.locks := by
  unfold writeStep
  cases hp : parseWriteCmd line with
  | none => exact Or.inl rfl
  | some p =>
    cases p with
    | mk f n =>
      simp only []
      cases h2 : lookupA st.files f with
      | none => exact Or.inl rfl
      | some content =>
        simp only []
        split_ifs
        · exact Or.inl rfl
        · exact Or.inl rfl
        · exact Or.inl rfl
        · exact Or.inr ⟨f, n.toNat, rfl⟩

set_option maxHeartbeats 1000000 in
theorem dispatchCmd_locks (st : SSState) (fd : Nat) (now : Int) (user : Str)
    (line : Str) :
    ((dispatchCmd st fd now user line).1).locks = st.locks ∨
    ∃ f s, ((dispatchCmd st fd now user line).1).locks = (f, s, fd) :: st.locks := by
  unfold dispatchCmd
  simp only []
  generalize (tokenC (tokenC line).2).1 = fname
  generalize List.dropWhile cSpace (tokenC (tokenC line).2).2 = rest
  generalize (tokenC line).1 = cmd
  by_cases h1 : (cmd = "CREATE".toList && !fname.isEmpty) = true
  · rw [if_pos h1]; exact Or.inl rfl
  rw [if_neg h1]
  by_cases h2 : (cmd = "READ".toList && !fname.isEmpty) = true
  · rw [if_pos h2]; exact Or.inl rfl
  rw [if_neg h2]
  by_cases h3 : (cmd = "STREAM".toList && !fname.isEmpty) = true
  · rw [if_pos h3]; exact Or.inl rfl
  rw [if_neg h3]
  by_cases h4 : List.take 5 cmd = "WRITE".toList
  · rw [if_pos h4]; exact writeStep_locks st fd line
  rw [if_neg h4]
  by_cases h5 : (cmd = "UNDO".toList && !fname.isEmpty) = true
  · rw [if_pos h5]; exact Or.inl (undoCmdStep_locks st _)
  rw [if_neg h5]
  by_cases h6 : (cmd = "CHECKPOINT".toList && !rest.isEmpty) = true
  · rw [if_pos h6]
    cases hpt : parseTwoArgs ("CHECKPOINT".toList) line with
    | some ft =>
      simp only [hpt]
      exact Or.inl (checkpointCmdStep_locks st _ _ now user)
    | none => simp only [hpt]; exact Or.inl trivial
  rw [if_neg h6]
  by_cases h7 : (cmd = "VIEWCHECKPOINT".toList && !rest.isEmpty) = true
  · rw [if_pos h7]; exact Or.inl rfl
  rw [if_neg h7]
  by_cases h8 : (cmd = "REVERT".toList && !rest.isEmpty) = true
  · rw [if_pos h8]
    cases hpt : parseTwoArgs ("REVERT".toList) line with
    | some ft =>
      simp only [hpt]
      exact Or.inl (revertCmdStep_locks st _ _ now user)
    | none => simp only [hpt]; exact Or.inl trivial
  rw [if_neg h8]
  by_cases h9 : (cmd = "LISTCHECKPOINTS".toList && !fname.isEmpty) = true
  · rw [if_pos h9]; exact Or.inl rfl
  rw [if_neg h9]
  by_cases h10 : (cmd = "DELETE".toList && !fname.isEmpty) = true
  · rw [if_pos h10]
    cases hlk : lookupA st.files fname with
    | some v => simp only [hlk]; exact Or.inl trivial
    | none => simp only [hlk]; exact Or.inl trivial
  rw [if_neg h10]
  by_cases h11 : cmd = "EXIT".toList
  · rw [if_pos h11]; exact Or.inl rfl
  rw [if_neg h11]
  by_cases h12 : (!cmd.isEmpty && (cmd = "REQUESTACCESS".toList ||
      cmd = "VIEWREQUESTS".toList || cmd = "APPROVEREQUEST".toList ||
      cmd = "DENYREQUEST".toList)) = true
  · rw [if_pos h12]; exact Or.inl rfl
  rw [if_neg h12]
  exact Or.inl rfl

theorem handleLine_locks (st : SSState) (fd : Nat) (now : Int) (user : Str)
    (line : Str) :
    ((handleLine st fd now user line).1).locks = st.locks ∨
    (∃ f s, ((handleLine st fd now user line).1).locks =
      remove_sentence_lock st.locks f s fd) ∨
    (get_client_write_info st.locks fd = none ∧
      ∃ f s, ((handleLine st fd now user line).1).locks = (f, s, fd) :: st.locks) := by
  unfold handleLine
  cases hw : get_client_write_info st.locks fd with
  | some fs =>
    simp only []
    by_cases he : line.take 5 = "ETIRW".toList
    · rw [if_pos he]
      exact Or.inr (Or.inl ⟨fs.1, fs.2, etirwStep_locks st fd fs.1 fs.2 now user⟩)
    · rw [if_neg he]
      exact Or.inl (insertStep_locks st fd fs.1 fs.2 line)
  | none =>
    rcases dispatchCmd_locks st fd now user line with h | ⟨f, s, h⟩
    · exact Or.inl h
    · exact Or.inr (Or.inr ⟨rfl, f, s, h⟩)

theorem handleLine_countLocks (st : SSState) (fd : Nat) (now : Int) (user : Str)
    (line : Str) (h : countLocksFd st.locks fd ≤ 1) :
    countLocksFd ((handleLine st fd now user line).1).locks fd ≤ 1 := by
  rcases handleLine_locks st fd now user line with he | ⟨f, s, he⟩ | ⟨hw, f, s, he⟩
  · rw [he]; exact h
  · rw [he]
    exact Nat.le_trans (remove_sentence_lock_countP_le st.locks f s fd fd) h
  · rw [he]
    have h0 := countLocksFd_zero_of_none st.locks fd hw
    unfold countLocksFd at h0 ⊢
    rw [List.countP_cons_of_pos (p := fun l => decide (l.2.2 = fd)) st.locks (by simp), h0]

/-- C10.  One sentence lock per connection: starting from any state where the
fd holds at most one lock, processing any sequence of lines leaves it with at
most one lock (a line while a lock is held is only ever ETIRW — releasing it
— or an insert, which acquires nothing, so no second lock can be taken); in
particular a second WRITE command sent while a lock is held is parsed as an
insert line and rejected as invalid, leaving the state untouched; and a
disconnect releases every lock of the fd. -/
theorem c10_one_lock_per_connection :
    (∀ (st : SSState) (fd : Nat) (now : Int) (user : Str) (lines : List Str),
      countLocksFd st.locks fd ≤ 1 →
      countLocksFd (processLines st fd now user lines).locks fd ≤ 1) ∧
    (∀ (st : SSState) (fd : Nat) (now : Int) (user : Str) (f : Str) (s : Nat)
        (line : Str),
      get_client_write_info st.locks fd = some (f, s) →
      ¬(line.take 5 = "ETIRW".toList) → parseInsertLine line = none →
      handleLine st fd now user line = (st, .invalidInsert)) ∧
    (∀ (locks : List (Str × Nat × Nat)) (fd : Nat),
      countLocksFd (remove_client_locks locks fd) fd = 0) := by
  refine ⟨?_, ?_, ?_⟩
  · intro st fd now user lines
    induction lines generalizing st with
    | nil => exact fun h => h
    | cons line rest ih =>
      intro h
      exact ih _ (handleLine_countLocks st fd now user line h)
  · intro st fd now user f s line hw hne hpl
    unfold handleLine
    simp only [hw]
    rw [if_neg hne]
    unfold insertStep
    simp only [hpl]
  · intro locks fd
    unfold countLocksFd remove_client_locks
    rw [List.countP_eq_zero]
    intro a ha
    have := List.mem_filter.mp ha
    simpa using this.2

/-- Witness for C10: fd 7 holds the lock on (doc, 1); a WRITE line is
rejected as an invalid insert, a two-WRITE line sequence leaves at most one
lock, and disconnect clears the table. -/
theorem c10_one_lock_per_connection_witness :
    countLocksFd (processLines s2Init 1 5 ("u".toList)
      ["WRITE doc 1".toList, "WRITE doc 2".toList]).locks 1 ≤ 1 ∧
    handleLine c6State 7 5 ("u".toList) ("WRITE doc 2".toList) =
      (c6State, .invalidInsert) ∧
    countLocksFd (remove_client_locks [("doc".toList, 1, 7)] 7) 7 = 0 :=
  ⟨c10_one_lock_per_connection.1 s2Init 1 5 ("u".toList)
      ["WRITE doc 1".toList, "WRITE doc 2".toList] (by decide),
    c10_one_lock_per_connection.2.1 c6State 7 5 ("u".toList) ("doc".toList) 1
      ("WRITE doc 2".toList) (by decide) (by decide) (by decide),
    c10_one_lock_per_connection.2.2 [("doc".toList, 1, 7)] 7⟩

end CollabDoc
